import Mathlib

/-!
Verification of the nutrition-bot intake pipeline (src/main.py).

The Python source is shallowly embedded: Python floats are modeled as exact
rationals, Python dicts (the draft profile in context.user_data and the
user_data_store) as an option-field record and an association list, a raised
exception (ValueError, KeyError, a collaborator failure) as an Option/Except
none/error, and each regular-expression substitution of the text formatter as
an explicit left-to-right, non-overlapping scanner over List Char.
-/

namespace DietPlanner

/-- Conversation states, main.py line 27 (GENDER..MENU_CONFIRM) and line 677
(TIP_AMOUNT, TIP_CONFIRM); ended models ConversationHandler.END. -/
inductive ConvState
  | gender | age | weight | height | activity | goal | menuConfirm
  | tipAmount | tipConfirm | ended
deriving DecidableEq

/-- The per-user data dict (context.user_data and the entries of
user_data_store): each key of the Python dict is an optional field. -/
structure UserData where
  gender : Option String := none
  age : Option ℤ := none
  weight : Option ℚ := none
  height : Option ℚ := none
  activity : Option String := none
  goal : Option String := none
  bmr : Option ℚ := none
  tdee : Option ℚ := none
  calories : Option ℚ := none
deriving DecidableEq

/-- user_data_store (line 50): a dict from Telegram user id to the user's
data, modeled as an association list. -/
abbrev Store := List (ℕ × UserData)

/-- Dict lookup: user_data_store[user_id] when present. -/
def storeGet (σ : Store) (uid : ℕ) : Option UserData :=
  (σ.find? (fun e => e.1 == uid)).map Prod.snd

/-- Dict assignment user_data_store[user_id] = data (line 411). -/
def storePut (σ : Store) (uid : ℕ) (d : UserData) : Store :=
  (uid, d) :: σ.filter (fun e => e.1 != uid)

/-- ACTIVITY_LEVELS (lines 30-36): the five named levels with their exact
multipliers, in source order. -/
def ACTIVITY_LEVELS : List (String × ℚ) :=
  [("No activity", 1.2),
   ("Minimal activity", 1.375),
   ("Medium activity", 1.55),
   ("Above average activity", 1.725),
   ("High activity", 1.9)]

/-- Dict lookup ACTIVITY_LEVELS[key] (line 394); none models the KeyError. -/
def lookupActivity (key : String) : Option ℚ :=
  (ACTIVITY_LEVELS.find? (fun p => p.1 == key)).map Prod.snd

/-- list(ACTIVITY_LEVELS.keys()) (lines 325, 345). -/
def activity_options : List String := ACTIVITY_LEVELS.map Prod.fst

/-- goal_options (lines 356, 373). -/
def goal_options : List String := ["Lose weight", "Maintain weight", "Gain weight"]

/-- str.lower() on ASCII text. -/
def pyLower (s : String) : String := String.mk (s.data.map Char.toLower)

/-- ACTIVITY_MAPPING (lines 39-41): lowercase key to canonical key. Defined in
the source but never consulted by any handler. -/
def ACTIVITY_MAPPING : List (String × String) :=
  ACTIVITY_LEVELS.map (fun p => (pyLower p.1, p.1))

/-- GOAL_MAPPING (lines 43-47). Defined in the source but never consulted by
any handler. -/
def GOAL_MAPPING : List (String × String) :=
  [("lose weight", "Lose weight"),
   ("maintain weight", "Maintain weight"),
   ("gain weight", "Gain weight")]

/-- Numeric value of a list of decimal digits. -/
def digitsVal (l : List Char) : ℕ :=
  l.foldl (fun n c => 10 * n + (c.toNat - 48)) 0

/-- Python re \s and str.strip whitespace on the ASCII range: space, tab,
newline, carriage return, vertical tab, form feed. (Python also strips some
further Unicode whitespace; those code points are not modeled.) -/
def isSpaceChar (c : Char) : Bool :=
  c == ' ' || c == '\t' || c == '\n' || c == '\r' || c == '\x0b' || c == '\x0c'

/-- Python str.strip(): whitespace removed from both ends. -/
def stripWs (l : List Char) : List Char :=
  ((l.dropWhile isSpaceChar).reverse.dropWhile isSpaceChar).reverse

/-- Continuation of a digit group after its first digit: Python number
literals allow a single underscore only between two digits. -/
def digitsURest : List Char → Option (List Char)
  | [] => some []
  | '_' :: c :: cs => if c.isDigit then (digitsURest cs).map (fun l => c :: l) else none
  | '_' :: [] => none
  | c :: cs => if c.isDigit then (digitsURest cs).map (fun l => c :: l) else none

/-- A nonempty digit group with Python underscore grouping, as a number. -/
def digitsU (l : List Char) : Option ℕ :=
  match l with
  | [] => none
  | c :: cs => if c.isDigit then (digitsURest cs).map (fun ds => digitsVal (c :: ds)) else none

/-- A possibly-empty digit group with Python underscore grouping, as its
digits with the underscores removed. -/
def cleanDigits (l : List Char) : Option (List Char) :=
  match l with
  | [] => some []
  | c :: cs => if c.isDigit then (digitsURest cs).map (fun ds => c :: ds) else none

/-- Python int(text) (lines 285, 344, 372): surrounding whitespace is
stripped, then an optional sign and a nonempty ASCII digit group with
underscore grouping; none models the ValueError branch. (Non-ASCII digits,
which int() also accepts, are not modeled.) -/
def pyInt (s : String) : Option ℤ :=
  match stripWs s.data with
  | '-' :: ds => (digitsU ds).map (fun n => -(n : ℤ))
  | '+' :: ds => (digitsU ds).map (fun n => (n : ℤ))
  | ds => (digitsU ds).map (fun n => (n : ℤ))

/-- Value of "int.frac" as an exact rational. -/
def decimalVal (int frac : List Char) : ℚ :=
  (digitsVal int : ℚ) + (digitsVal frac : ℚ) / (10 : ℚ) ^ frac.length

/-- A Python float value as produced by float(text): a finite value (exact
rational), NaN, or a signed infinity. -/
inductive PyFloat
  | finite (q : ℚ)
  | nan
  | inf
  | ninf
deriving DecidableEq

/-- Negation of a parsed float magnitude (float("-nan") is still nan). -/
def negPF : PyFloat → PyFloat
  | PyFloat.finite q => PyFloat.finite (-q)
  | PyFloat.nan => PyFloat.nan
  | PyFloat.inf => PyFloat.ninf
  | PyFloat.ninf => PyFloat.inf

/-- Case-insensitive whole-string comparison against a lowercase pattern. -/
def eqCI (pat : List Char) (l : List Char) : Bool :=
  l.map Char.toLower == pat

/-- Split a float literal at its exponent marker e or E, if present. -/
def splitExp (l : List Char) : List Char × Option (List Char) :=
  match l.span (fun c => c ≠ 'e' ∧ c ≠ 'E') with
  | (m, []) => (m, none)
  | (m, _ :: rest) => (m, some rest)

/-- Split a float mantissa at its decimal point, if present. -/
def splitDot (l : List Char) : List Char × Option (List Char) :=
  match l.span (fun c => c ≠ '.') with
  | (m, []) => (m, none)
  | (m, _ :: rest) => (m, some rest)

/-- Exponent of a float literal: optional sign and a nonempty digit group. -/
def parseExp (l : List Char) : Option ℤ :=
  match l with
  | '-' :: ds => (digitsU ds).map (fun n => -(n : ℤ))
  | '+' :: ds => (digitsU ds).map (fun n => (n : ℤ))
  | ds => (digitsU ds).map (fun n => (n : ℤ))

/-- Finite Python float literal: [digits] [. [digits]] [(e|E) [sign] digits],
with at least one mantissa digit, underscore grouping in each digit group. -/
def pyDecimal (l : List Char) : Option ℚ :=
  match splitExp l with
  | (mant, expPart) =>
    match splitDot mant with
    | (ip, fpOpt) =>
      match cleanDigits ip with
      | none => none
      | some I =>
        match (match fpOpt with
               | none => some []
               | some fp => cleanDigits fp) with
        | none => none
        | some F =>
          if I = [] ∧ F = [] then none
          else
            match expPart with
            | none => some (decimalVal I F)
            | some ex =>
              match parseExp ex with
              | none => none
              | some e => some (decimalVal I F * (10 : ℚ) ^ e)

/-- Unsigned part of float(text): the special spellings inf, infinity and nan
(case-insensitive) or a finite decimal literal. -/
def pyFloatMag (l : List Char) : Option PyFloat :=
  if eqCI "inf".data l || eqCI "infinity".data l then some PyFloat.inf
  else if eqCI "nan".data l then some PyFloat.nan
  else (pyDecimal l).map PyFloat.finite

/-- Python float(text) (lines 301, 317): whitespace stripped, optional sign,
then a special value or finite literal; none models the ValueError branch. -/
def pyFloatParse (s : String) : Option PyFloat :=
  match stripWs s.data with
  | '-' :: l => (pyFloatMag l).map negPF
  | '+' :: l => pyFloatMag l
  | l => pyFloatMag l

/-- Python float < comparison against a rational bound (IEEE semantics:
every comparison with NaN is False). -/
def pyFloatLt : PyFloat → ℚ → Bool
  | PyFloat.finite q, c => decide (q < c)
  | PyFloat.nan, _ => false
  | PyFloat.inf, _ => false
  | PyFloat.ninf, _ => true

/-- Python float > comparison against a rational bound (IEEE semantics:
every comparison with NaN is False). -/
def pyFloatGt : PyFloat → ℚ → Bool
  | PyFloat.finite q, c => decide (c < q)
  | PyFloat.nan, _ => false
  | PyFloat.inf, _ => true
  | PyFloat.ninf, _ => false

/-- Python str.capitalize() (line 273): first character uppercased, the rest
lowercased (ASCII). -/
def pyCapitalize (s : String) : String :=
  match s.data with
  | [] => String.mk []
  | c :: cs => String.mk (c.toUpper :: cs.map Char.toLower)

/-- A single re.sub-style pass: the matcher f, applied at each position from
the left, either yields (replacement, remainder after the match) or does not
match there; matches are non-overlapping and replacements are not rescanned.
The fuel argument (instantiated with the input length by runSub) keeps the
recursion structural; every matcher below consumes at least one character, so
the fuel never runs out. -/
def runSubFuel (f : List Char → Option (List Char × List Char)) : ℕ → List Char → List Char
  | _, [] => []
  | 0, l => l
  | fuel + 1, c :: cs =>
    match f (c :: cs) with
    | some (out, rest) => out ++ runSubFuel f fuel rest
    | none => c :: runSubFuel f fuel cs

/-- re.sub over a whole text. -/
def runSub (f : List Char → Option (List Char × List Char)) (l : List Char) : List Char :=
  runSubFuel f l.length l

/-- Literal (non-regex) occurrence matcher, for Python str.replace. -/
def litSub (pat repl : List Char) (l : List Char) : Option (List Char × List Char) :=
  if pat ≠ [] ∧ pat.isPrefixOf l then some (repl, l.drop pat.length) else none

/-- Python str.replace(pat, repl) (lines 264, 344, 372, 442): replaces every
non-overlapping occurrence, left to right. -/
def pyReplace (s pat repl : String) : String :=
  String.mk (runSubFuel (litSub pat.data repl.data) s.data.length s.data)

/-- Matcher for r'#+\s*' replaced by '' (line 192): a maximal run of '#'
followed by a maximal run of whitespace is removed. -/
def headerSub : List Char → Option (List Char × List Char)
  | [] => none
  | c :: cs =>
    if c = '#' then some ([], (cs.dropWhile (fun x => x = '#')).dropWhile isSpaceChar)
    else none

/-- Matcher for r'[*\-]\s+' replaced by '- ' (line 195): a star or dash
followed by at least one whitespace character (greedy) becomes a dash and a
space. -/
def bulletSub : List Char → Option (List Char × List Char)
  | c :: c2 :: cs =>
    if (c = '*' ∨ c = '-') ∧ isSpaceChar c2 then some (['-', ' '], cs.dropWhile isSpaceChar)
    else none
  | _ => none

/-- Lazy search for the closing '**' of r'\*\*(.*?)\*\*': at each point the
closer is tried first, '.' does not cross a newline. Returns the capture and
the remainder after the closer. -/
def findBoldClose (acc : List Char) : List Char → Option (List Char × List Char)
  | [] => none
  | c :: rest =>
    if c = '*' ∧ rest.head? = some '*' then some (acc.reverse, rest.tail)
    else if c = '\n' then none
    else findBoldClose (c :: acc) rest

/-- Matcher for r'\*\*(.*?)\*\*' replaced by the capture (line 198). -/
def boldSub : List Char → Option (List Char × List Char)
  | c :: c2 :: rest => if c = '*' ∧ c2 = '*' then findBoldClose [] rest else none
  | _ => none

/-- Lazy search for a closing single delimiter of r'\*(.*?)\*' or
r'_(.*?)_'; '.' does not cross a newline. -/
def findInlineClose (delim : Char) (acc : List Char) : List Char → Option (List Char × List Char)
  | [] => none
  | c :: rest =>
    if c = delim then some (acc.reverse, rest)
    else if c = '\n' then none
    else findInlineClose delim (c :: acc) rest

/-- Matcher for r'\*(.*?)\*' replaced by the capture (line 199). -/
def starSub : List Char → Option (List Char × List Char)
  | [] => none
  | c :: rest => if c = '*' then findInlineClose '*' [] rest else none

/-- Matcher for r'_(.*?)_' replaced by the capture (line 200). -/
def underscoreSub : List Char → Option (List Char × List Char)
  | [] => none
  | c :: rest => if c = '_' then findInlineClose '_' [] rest else none

/-- Greedy r'\s*\n' after an opening newline: scans the maximal whitespace
run and returns the remainder after the last newline inside it, if any. -/
def greedyNl : List Char → Option (List Char)
  | [] => none
  | c :: rest =>
    if isSpaceChar c then
      match greedyNl rest with
      | some r => some r
      | none => if c = '\n' then some rest else none
    else none

/-- Matcher for r'\n\s*\n' replaced by a double newline (line 203). -/
def blankSub : List Char → Option (List Char × List Char)
  | [] => none
  | c :: cs => if c = '\n' then (greedyNl cs).map (fun r => (['\n', '\n'], r)) else none

/-- Case-insensitive literal prefix match (re.IGNORECASE); returns the
matched original characters and the remainder. -/
def matchCaseIns : List Char → List Char → Option (List Char × List Char)
  | [], rest => some ([], rest)
  | _ :: _, [] => none
  | p :: ps, c :: cs =>
    if c.toLower = p.toLower then (matchCaseIns ps cs).map (fun pr => (c :: pr.1, pr.2))
    else none

/-- Regex alternation (Monday|Tuesday|...), first alternative wins. -/
def tryAlts (pats : List (List Char)) (l : List Char) : Option (List Char × List Char) :=
  match pats with
  | [] => none
  | p :: ps =>
    match matchCaseIns p l with
    | some pr => some pr
    | none => tryAlts ps l

/-- Day-name alternatives of line 206, in source order. -/
def dayNames : List (List Char) :=
  ["Monday".data, "Tuesday".data, "Wednesday".data, "Thursday".data,
   "Friday".data, "Saturday".data, "Sunday".data]

/-- Meal-name alternatives of line 208. -/
def mealNames : List (List Char) :=
  ["Breakfast".data, "Lunch".data, "Dinner".data, "Snack".data]

/-- The replacement prefix of r'🗓️ \1' (line 207). -/
def calendarEmoji : List Char := "🗓️ ".data

/-- The replacement prefix of r'🍽️ \1' (line 209). -/
def mealEmoji : List Char := "🍽️ ".data

/-- Matcher decorating an alternation match with an emoji prefix, keeping the
matched text (the \1 backreference). -/
def altSub (pats : List (List Char)) (deco : List Char) (l : List Char) :
    Option (List Char × List Char) :=
  (tryAlts pats l).map (fun pr => (deco ++ pr.1, pr.2))

/-- format_menu_as_plain_text (lines 183-211): the eight re.sub passes in
source order. The empty text returns itself through the same pipeline (each
pass is the identity on []), matching the early return of line 188. -/
def format_menu_as_plain_text (menu_text : List Char) : List Char :=
  runSub (altSub mealNames mealEmoji)
    (runSub (altSub dayNames calendarEmoji)
      (runSub blankSub
        (runSub underscoreSub
          (runSub starSub
            (runSub boldSub
              (runSub bulletSub
                (runSub headerSub menu_text)))))))

/-- gender handler (lines 259-280): the callback data has its "gender_"
prefix stripped; exactly the lowercase strings "male" and "female" are
accepted and stored capitalized, anything else re-prompts the same state
without touching the draft. -/
def gender (d : UserData) (data : String) : ConvState × UserData :=
  let gender_input := pyReplace data "gender_" ""
  if gender_input = "male" ∨ gender_input = "female" then
    (ConvState.age, { d with gender := some (pyCapitalize gender_input) })
  else (ConvState.gender, d)

/-- age handler (lines 282-296): int(text); ValueError or a value outside
[1,120] re-prompts AGE without writing the draft, otherwise the age is stored
and the state advances to WEIGHT. -/
def age (d : UserData) (text : String) : ConvState × UserData :=
  match pyInt text with
  | none => (ConvState.age, d)
  | some a =>
    if a < 1 ∨ 120 < a then (ConvState.age, d)
    else (ConvState.weight, { d with age := some a })

/-- weight handler (lines 298-312): float(text); ValueError re-prompts
WEIGHT, then the reject test weight < 1 or weight > 300 under Python float
comparison semantics re-prompts WEIGHT, otherwise the state advances to
HEIGHT. Both infinities fail the test and re-prompt; a finite value in range
is stored. NaN passes the test (both comparisons are False) and the code
stores NaN and advances — the stored NaN itself has no exact-rational
representation, so only the (faithful) state transition is modeled there;
see c3_nan_accepted. -/
def weight (d : UserData) (text : String) : ConvState × UserData :=
  match pyFloatParse text with
  | none => (ConvState.weight, d)
  | some v =>
    if pyFloatLt v 1 || pyFloatGt v 300 then (ConvState.weight, d)
    else
      match v with
      | PyFloat.finite w => (ConvState.height, { d with weight := some w })
      | _ => (ConvState.height, d)

/-- height handler (lines 314-337): float(text); ValueError re-prompts
HEIGHT, then the reject test height < 30 or height > 250 under Python float
comparison semantics re-prompts HEIGHT, otherwise the state advances to
ACTIVITY; NaN is accepted exactly as in the weight handler. -/
def height (d : UserData) (text : String) : ConvState × UserData :=
  match pyFloatParse text with
  | none => (ConvState.height, d)
  | some v =>
    if pyFloatLt v 30 || pyFloatGt v 250 then (ConvState.height, d)
    else
      match v with
      | PyFloat.finite h => (ConvState.activity, { d with height := some h })
      | _ => (ConvState.activity, d)

/-- Body of the activity handler after int() parsing (lines 347-365): an
index outside [0,5) re-prompts ACTIVITY, otherwise the named level is stored
and the state advances to GOAL. -/
def activitySelect (d : UserData) (idx : ℤ) : ConvState × UserData :=
  if h : idx < 0 ∨ 5 ≤ idx then (ConvState.activity, d)
  else
    (ConvState.goal,
     { d with activity := some (activity_options.get ⟨idx.toNat, by
        push_neg at h
        have h5 : activity_options.length = 5 := rfl
        omega⟩) })

/-- activity handler (lines 339-365): int(data.replace("activity_", ""));
none models the uncaught ValueError on forged callback data. -/
def activity (d : UserData) (data : String) : Option (ConvState × UserData) :=
  (pyInt (pyReplace data "activity_" "")).map (activitySelect d)

/-- BMR (lines 388-391): the Python comparison is with the single canonical
string "Male"; every other stored gender takes the female branch. -/
def bmrOf (gender : String) (w h a : ℚ) : ℚ :=
  if gender = "Male" then 10 * w + 6.25 * h - 5 * a + 5
  else 10 * w + 6.25 * h - 5 * a - 161

/-- Goal adjustment (lines 397-403). -/
def caloriesOf (goal : String) (tdee : ℚ) : ℚ :=
  if goal = "Lose weight" then tdee - 500
  else if goal = "Gain weight" then tdee + 500
  else tdee

/-- Body of the goal handler after int() parsing (lines 375-436), the
Calculation step: an index outside [0,3) re-prompts GOAL; otherwise the goal
is stored, bmr/tdee/calories are computed from the draft fields and the
completed draft is written to the store, advancing to MENU_CONFIRM. A missing
draft field or activity key raises KeyError in Python, modeled as none. -/
def goalSelect (uid : ℕ) (σ : Store) (d : UserData) (idx : ℤ) :
    Option (ConvState × UserData × Store) :=
  if hidx : idx < 0 ∨ 3 ≤ idx then some (ConvState.goal, d, σ)
  else
    let g := goal_options.get ⟨idx.toNat, by
      push_neg at hidx
      have h3 : goal_options.length = 3 := rfl
      omega⟩
    match d.weight, d.height, d.age, d.gender, d.activity with
    | some w, some ht, some a, some gen, some act =>
      match lookupActivity act with
      | none => none
      | some mult =>
        let b := bmrOf gen w ht (a : ℚ)
        let t := b * mult
        let cal := caloriesOf g t
        let d2 : UserData :=
          { d with goal := some g, bmr := some b, tdee := some t, calories := some cal }
        some (ConvState.menuConfirm, d2, storePut σ uid d2)
    | _, _, _, _, _ => none

/-- goal handler (lines 367-436): int(data.replace("goal_", "")); none models
the uncaught ValueError on forged callback data. -/
def goal (uid : ℕ) (σ : Store) (d : UserData) (data : String) :
    Option (ConvState × UserData × Store) :=
  (pyInt (pyReplace data "goal_" "")).bind (goalSelect uid σ d)

/-- cancel handler (lines 557-563): replies with a farewell and returns
ConversationHandler.END; neither the draft nor the store is touched. -/
def cancel (σ : Store) (d : UserData) : ConvState × UserData × Store :=
  (ConvState.ended, d, σ)

/-- Macro plan produced by the /diet command. -/
structure DietPlan where
  calories : ℚ
  protein_grams : ℚ
  carb_grams : ℚ
  fat_grams : ℚ
  protein_percentage : ℚ
  carb_percentage : ℚ
  fat_percentage : ℚ
deriving DecidableEq

/-- Outcome of /diet: either the fixed instruction to complete intake first
("Please provide your body data first using /start", lines 569-573) or the
computed macro plan. -/
inductive DietResult
  | missingProfile
  | plan (p : DietPlan)
deriving DecidableEq

/-- generate_diet, the /diet command (lines 565-615): missing store entry or
an entry without the calories key yields the fixed instruction and performs no
calculation; otherwise the macro split of lines 581-591 is computed from the
stored calories and goal. A stored entry with calories but no goal key would
raise KeyError, modeled as none. -/
def generate_diet (σ : Store) (uid : ℕ) : Option DietResult :=
  match storeGet σ uid with
  | none => some DietResult.missingProfile
  | some d =>
    match d.calories with
    | none => some DietResult.missingProfile
    | some calories =>
      match d.goal with
      | none => none
      | some goal =>
        let protein_percentage : ℚ := if goal = "Lose weight" then 0.3 else 0.25
        let carb_percentage : ℚ := if goal = "Gain weight" then 0.4 else 0.35
        let fat_percentage : ℚ := if goal = "Lose weight" then 0.3 else 0.4
        let protein_cal := protein_percentage * calories
        let carb_cal := carb_percentage * calories
        let fat_cal := fat_percentage * calories
        some (DietResult.plan
          { calories := calories
            protein_grams := protein_cal / 4
            carb_grams := carb_cal / 4
            fat_grams := fat_cal / 9
            protein_percentage := protein_percentage
            carb_percentage := carb_percentage
            fat_percentage := fat_percentage })

/-- Fixed message returned when the DeepSeek client is not configured
(line 503). -/
def UNAVAILABLE_MSG : String :=
  "AI menu generation is currently unavailable. Please configure the DeepSeek API key."

/-- Fixed apology returned from the except-branch of generate_weekly_menu
(line 555). -/
def APOLOGY_MSG : String :=
  "I apologize, but I'm having trouble generating your menu at the moment. Please try again later."

/-- generate_weekly_menu (lines 500-555): with no configured client the fixed
unavailable message is returned; otherwise the collaborator is called once
(the api argument models client.chat.completions.create on the prompt built
from user_data; Except.error models any raised exception, including network
errors and timeouts). On success the response text is post-processed by
format_menu_as_plain_text; on failure the fixed apology string is returned.
The embedding is total: no exception escapes this function. -/
def generate_weekly_menu (client : Bool) (api : UserData → Except Unit String)
    (user_data : UserData) : String :=
  if !client then UNAVAILABLE_MSG
  else
    match api user_data with
    | Except.ok content => String.mk (format_menu_as_plain_text content.data)
    | Except.error _ => APOLOGY_MSG

/-- Chunking of lines 456 and 640: parts = [text[i:i+4000] for i in
range(0, len(text), 4000)]. -/
def chunks4000 (l : List Char) : List (List Char) :=
  if h : l = [] then []
  else l.take 4000 :: chunks4000 (l.drop 4000)
termination_by l.length
decreasing_by
  have hp : 0 < l.length := List.length_pos.mpr h
  simp only [List.length_drop]
  omega

/-- The transport split of lines 454-460 and 638-644: texts longer than 4000
are chunked, shorter texts are sent as a single message. -/
def messageParts (l : List Char) : List (List Char) :=
  if 4000 < l.length then chunks4000 l else [l]

/-- Outcome of the /weekly_menu command. -/
inductive WeeklyMenuReply
  | needIntake
  | sent (parts : List (List Char))
  | failed
deriving DecidableEq

/-- weekly_menu, the /weekly_menu command (lines 617-661): a missing store
entry or an entry without the calories key yields the fixed instruction
("Please provide your body data first using /start") and calls no
collaborator; otherwise generate_weekly_menu runs on the stored data and a
truthy (nonempty) result is sent in transport chunks. -/
def weekly_menu (client : Bool) (api : UserData → Except Unit String)
    (σ : Store) (uid : ℕ) : WeeklyMenuReply :=
  match storeGet σ uid with
  | none => WeeklyMenuReply.needIntake
  | some d =>
    if d.calories.isNone then WeeklyMenuReply.needIntake
    else
      let m := generate_weekly_menu client api d
      if m = "" then WeeklyMenuReply.failed
      else WeeklyMenuReply.sent (messageParts m.data)

/-- An incoming user event: the /cancel command (a ConversationHandler
fallback, line 970), a free-text message, or an inline-button callback. -/
inductive Input
  | cancel
  | message (text : String)
  | callback (data : String)

/-- One dispatch step of the ConversationHandler wiring of main (lines
957-972): each conversation state routes its own update type to its handler;
/cancel is a fallback available in every conversation state (text states use
filters.TEXT and not filters.COMMAND, so commands fall through to the
fallback; callback states do not consume commands at all). After END there is
no active conversation and no intake handler fires. The menu-confirmation and
tip handlers are outside the verified intake core; their non-cancel inputs are
not modeled. -/
def stepConv (uid : ℕ) (σ : Store) (s : ConvState) (d : UserData) (inp : Input) :
    Option (ConvState × UserData × Store) :=
  match s, inp with
  | ConvState.ended, _ => none
  | _, Input.cancel => some (cancel σ d)
  | ConvState.gender, Input.callback data =>
    let r := gender d data
    some (r.1, r.2, σ)
  | ConvState.age, Input.message t =>
    let r := age d t
    some (r.1, r.2, σ)
  | ConvState.weight, Input.message t =>
    let r := weight d t
    some (r.1, r.2, σ)
  | ConvState.height, Input.message t =>
    let r := height d t
    some (r.1, r.2, σ)
  | ConvState.activity, Input.callback data => (activity d data).map (fun r => (r.1, r.2, σ))
  | ConvState.goal, Input.callback data => goal uid σ d data
  | _, _ => none

/-- A fully answered draft, as it stands when the goal callback arrives. -/
def sampleDraft : UserData :=
  { gender := some "Male", age := some 30, weight := some 70, height := some 175,
    activity := some "Medium activity" }

/-- The completed profile the Calculation step computes from sampleDraft with
goal index 0 (Lose weight): bmr 1648.75, tdee 2555.5625, target 2055.5625. -/
def sampleComplete : UserData :=
  { gender := some "Male", age := some 30, weight := some 70, height := some 175,
    activity := some "Medium activity", goal := some "Lose weight",
    bmr := some (6595/4), tdee := some (40889/16), calories := some (32889/16) }

/-- A stored profile with goal Lose weight and a 2000 kcal target; /diet
reads exactly the calories and goal keys. -/
def loseEntry : UserData := { goal := some "Lose weight", calories := some 2000 }

/-- Dict semantics of storePut: the written entry is what a subsequent lookup
returns. -/
theorem storeGet_storePut (σ : Store) (uid : ℕ) (d : UserData) :
    storeGet (storePut σ uid d) uid = some d := by
  simp [storeGet, storePut]

/-- Behavior of the three numeric validators on the finite fragment: an
integer age in [1,120], a finite weight in [1,300] and a finite height in
[30,250] are accepted, written and advance the state; finite values outside
these closed intervals, infinities, and unparseable input re-prompt the same
state with the draft untouched. (The NaN parse is the C3 code bug; see
c3_nan_accepted.) -/
theorem finite_numeric_validators :
    (∀ (d : UserData) (t : String) (a : ℤ), pyInt t = some a → 1 ≤ a → a ≤ 120 →
      age d t = (ConvState.weight, { d with age := some a })) ∧
    (∀ (d : UserData) (t : String) (a : ℤ), pyInt t = some a → (a < 1 ∨ 120 < a) →
      age d t = (ConvState.age, d)) ∧
    (∀ (d : UserData) (t : String), pyInt t = none → age d t = (ConvState.age, d)) ∧
    (∀ (d : UserData) (t : String) (w : ℚ), pyFloatParse t = some (PyFloat.finite w) →
      1 ≤ w → w ≤ 300 → weight d t = (ConvState.height, { d with weight := some w })) ∧
    (∀ (d : UserData) (t : String) (w : ℚ), pyFloatParse t = some (PyFloat.finite w) →
      (w < 1 ∨ 300 < w) → weight d t = (ConvState.weight, d)) ∧
    (∀ (d : UserData) (t : String), pyFloatParse t = none → weight d t = (ConvState.weight, d)) ∧
    (∀ (d : UserData) (t : String),
      pyFloatParse t = some PyFloat.inf ∨ pyFloatParse t = some PyFloat.ninf →
      weight d t = (ConvState.weight, d)) ∧
    (∀ (d : UserData) (t : String) (h : ℚ), pyFloatParse t = some (PyFloat.finite h) →
      30 ≤ h → h ≤ 250 → height d t = (ConvState.activity, { d with height := some h })) ∧
    (∀ (d : UserData) (t : String) (h : ℚ), pyFloatParse t = some (PyFloat.finite h) →
      (h < 30 ∨ 250 < h) → height d t = (ConvState.height, d)) ∧
    (∀ (d : UserData) (t : String), pyFloatParse t = none → height d t = (ConvState.height, d)) ∧
    (∀ (d : UserData) (t : String),
      pyFloatParse t = some PyFloat.inf ∨ pyFloatParse t = some PyFloat.ninf →
      height d t = (ConvState.height, d)) := by
  refine ⟨?_, ?_, ?_, ?_, ?_, ?_, ?_, ?_, ?_, ?_, ?_⟩
  · intro d t a hp h1 h2
    simp only [age, hp]
    rw [if_neg (by omega)]
  · intro d t a hp hout
    simp only [age, hp]
    rw [if_pos hout]
  · intro d t hp
    simp only [age, hp]
  · intro d t w hp h1 h2
    simp only [weight, hp, pyFloatLt, pyFloatGt]
    rw [if_neg (by simp; constructor <;> [linarith; linarith])]
  · intro d t w hp hout
    simp only [weight, hp, pyFloatLt, pyFloatGt]
    rw [if_pos (by rcases hout with h | h <;> simp [h])]
  · intro d t hp
    simp only [weight, hp]
  · intro d t hp
    rcases hp with h | h <;> simp [weight, h, pyFloatLt, pyFloatGt]
  · intro d t h hp h1 h2
    simp only [height, hp, pyFloatLt, pyFloatGt]
    rw [if_neg (by simp; constructor <;> [linarith; linarith])]
  · intro d t h hp hout
    simp only [height, hp, pyFloatLt, pyFloatGt]
    rw [if_pos (by rcases hout with h2 | h2 <;> simp [h2])]
  · intro d t hp
    simp only [height, hp]
  · intro d t hp
    rcases hp with h | h <;> simp [height, h, pyFloatLt, pyFloatGt]

/-- Spot checks of the finite validator behavior at concrete inputs,
including the whitespace and exponent forms float() and int() accept. -/
theorem finite_numeric_validators_checks :
    age {} " 30" = (ConvState.weight, { ({} : UserData) with age := some 30 }) ∧
    age {} "121" = (ConvState.age, ({} : UserData)) ∧
    age {} "abc" = (ConvState.age, ({} : UserData)) ∧
    weight {} "70.5" = (ConvState.height, { ({} : UserData) with weight := some (141/2) }) ∧
    weight {} "1e2" = (ConvState.height, { ({} : UserData) with weight := some 100 }) ∧
    weight {} "0.5" = (ConvState.weight, ({} : UserData)) ∧
    weight {} "inf" = (ConvState.weight, ({} : UserData)) ∧
    height {} "175" = (ConvState.activity, { ({} : UserData) with height := some 175 }) ∧
    height {} "901" = (ConvState.height, ({} : UserData)) :=
  ⟨finite_numeric_validators.1 {} " 30" 30 (by decide) (by norm_num) (by norm_num),
   finite_numeric_validators.2.1 {} "121" 121 (by decide) (by norm_num),
   finite_numeric_validators.2.2.1 {} "abc" (by decide),
   finite_numeric_validators.2.2.2.1 {} "70.5" (141/2)
     (by
       have h1 : pyFloatParse "70.5" = some (PyFloat.finite (decimalVal ['7', '0'] ['5'])) := rfl
       have h2 : digitsVal ['7', '0'] = 70 := rfl
       have h3 : digitsVal ['5'] = 5 := rfl
       rw [h1, decimalVal, h2, h3]
       norm_num)
     (by norm_num) (by norm_num),
   finite_numeric_validators.2.2.2.1 {} "1e2" 100
     (by
       have h1 : pyFloatParse "1e2" =
           some (PyFloat.finite (decimalVal ['1'] [] * (10 : ℚ) ^ (2 : ℤ))) := rfl
       have h2 : digitsVal ['1'] = 1 := rfl
       have h3 : digitsVal ([] : List Char) = 0 := rfl
       rw [h1, decimalVal, h2, h3]
       norm_num)
     (by norm_num) (by norm_num),
   finite_numeric_validators.2.2.2.2.1 {} "0.5" (1/2)
     (by
       have h1 : pyFloatParse "0.5" = some (PyFloat.finite (decimalVal ['0'] ['5'])) := rfl
       have h2 : digitsVal ['0'] = 0 := rfl
       have h3 : digitsVal ['5'] = 5 := rfl
       rw [h1, decimalVal, h2, h3]
       norm_num)
     (by norm_num),
   finite_numeric_validators.2.2.2.2.2.2.1 {} "inf" (Or.inl (by decide)),
   finite_numeric_validators.2.2.2.2.2.2.2.1 {} "175" 175
     (by
       have h1 : pyFloatParse "175" = some (PyFloat.finite (decimalVal ['1', '7', '5'] [])) := rfl
       have h2 : digitsVal ['1', '7', '5'] = 175 := rfl
       have h3 : digitsVal ([] : List Char) = 0 := rfl
       rw [h1, decimalVal, h2, h3]
       norm_num)
     (by norm_num) (by norm_num),
   finite_numeric_validators.2.2.2.2.2.2.2.2.1 {} "901" 901
     (by
       have h1 : pyFloatParse "901" = some (PyFloat.finite (decimalVal ['9', '0', '1'] [])) := rfl
       have h2 : digitsVal ['9', '0', '1'] = 901 := rfl
       have h3 : digitsVal ([] : List Char) = 0 := rfl
       rw [h1, decimalVal, h2, h3]
       norm_num)
     (by norm_num)⟩

/-- C3 (code bug): the input "nan" parses as a Python float, and the reject
tests of lines 302 and 318 evaluate to False on NaN, because every float
comparison with NaN is False. The code therefore takes the accept branch on
"nan": the state advances (to HEIGHT resp. ACTIVITY) and NaN is written to
the draft, although NaN is not in the claimed closed interval and the
handler's own re-prompt message documents that only values between the
bounds are valid. -/
theorem c3_nan_accepted :
    pyFloatParse "nan" = some PyFloat.nan ∧
    (pyFloatLt PyFloat.nan 1 || pyFloatGt PyFloat.nan 300) = false ∧
    (weight {} "nan").1 = ConvState.height ∧
    (pyFloatLt PyFloat.nan 30 || pyFloatGt PyFloat.nan 250) = false ∧
    (height {} "nan").1 = ConvState.activity := by
  refine ⟨by decide, rfl, by decide, rfl, by decide⟩

/-- C4 counterexample: enum matching is not case-insensitive. The exact
lowercase callback payload "male" is accepted and normalized to "Male", but
"MALE" and "Male" are rejected and re-prompt the gender step, so the three
spellings do not all yield the same canonical value. -/
theorem c4_case_insensitive_counterexample :
    gender {} "gender_MALE" = (ConvState.gender, ({} : UserData)) ∧
    gender {} "gender_Male" = (ConvState.gender, ({} : UserData)) ∧
    gender {} "gender_male" = (ConvState.age, { ({} : UserData) with gender := some "Male" }) := by
  refine ⟨by decide, by decide, by decide⟩

/-- C4 (amended): gender matching is case-sensitive on the lowercase option
strings; "male" and "female" are accepted and normalized by capitalization to
the canonical "Male"/"Female", and every other string re-prompts the gender
step without mutating the draft. Activity level and goal are selected by
numeric index into the fixed option lists, and an out-of-range index
re-prompts without mutating the draft or the store. -/
theorem c4_enum_matching (d : UserData) (data : String) :
    (pyReplace data "gender_" "" = "male" →
      gender d data = (ConvState.age, { d with gender := some "Male" })) ∧
    (pyReplace data "gender_" "" = "female" →
      gender d data = (ConvState.age, { d with gender := some "Female" })) ∧
    (pyReplace data "gender_" "" ≠ "male" → pyReplace data "gender_" "" ≠ "female" →
      gender d data = (ConvState.gender, d)) ∧
    (∀ idx : ℤ, idx < 0 ∨ 5 ≤ idx → activitySelect d idx = (ConvState.activity, d)) ∧
    (∀ (uid : ℕ) (σ : Store) (idx : ℤ), idx < 0 ∨ 3 ≤ idx →
      goalSelect uid σ d idx = some (ConvState.goal, d, σ)) := by
  refine ⟨?_, ?_, ?_, ?_, ?_⟩
  · intro hrep
    have hc : pyCapitalize "male" = "Male" := by decide
    simp [gender, hrep, hc]
  · intro hrep
    have hc : pyCapitalize "female" = "Female" := by decide
    simp [gender, hrep, hc]
  · intro h1 h2
    simp only [gender]
    rw [if_neg (by push_neg; exact ⟨h1, h2⟩)]
  · intro idx hidx
    simp only [activitySelect]
    rw [dif_pos hidx]
  · intro uid σ idx hidx
    simp only [goalSelect]
    rw [dif_pos hidx]

/-- C4 witness: the amended behavior at the concrete payloads. -/
theorem c4_enum_matching_witness :
    gender {} "gender_male" = (ConvState.age, { ({} : UserData) with gender := some "Male" }) ∧
    gender {} "gender_MALE" = (ConvState.gender, ({} : UserData)) ∧
    activitySelect {} 5 = (ConvState.activity, ({} : UserData)) ∧
    goalSelect 1 [] {} (-1) = some (ConvState.goal, ({} : UserData), []) :=
  ⟨(c4_enum_matching {} "gender_male").1 (by decide),
   (c4_enum_matching {} "gender_MALE").2.2.1 (by decide) (by decide),
   (c4_enum_matching {} "arbitrary").2.2.2.1 5 (by omega),
   (c4_enum_matching {} "arbitrary").2.2.2.2 1 [] (-1) (by omega)⟩

/-- C5: with no store entry for the user, or an entry without a computed
calorie target, both the /diet and /weekly_menu operations return the fixed
complete-intake-first instruction, compute nothing, and the outcome is
independent of the collaborator (no collaborator call is observable); neither
operation crashes (each returns a value). -/
theorem c5_missing_profile (σ : Store) (uid : ℕ)
    (hmiss : storeGet σ uid = none ∨ ∃ d, storeGet σ uid = some d ∧ d.calories = none) :
    generate_diet σ uid = some DietResult.missingProfile ∧
    (∀ (client : Bool) (api : UserData → Except Unit String),
      weekly_menu client api σ uid = WeeklyMenuReply.needIntake) := by
  rcases hmiss with h | ⟨d, hd, hc⟩
  · exact ⟨by simp [generate_diet, h], fun client api => by simp [weekly_menu, h]⟩
  · exact ⟨by simp [generate_diet, hd, hc], fun client api => by simp [weekly_menu, hd, hc]⟩

/-- C5 witness: an empty store. -/
theorem c5_missing_profile_witness :
    generate_diet [] 7 = some DietResult.missingProfile ∧
    weekly_menu true (fun _ => Except.error ()) [] 7 = WeeklyMenuReply.needIntake :=
  ⟨(c5_missing_profile [] 7 (Or.inl rfl)).1,
   (c5_missing_profile [] 7 (Or.inl rfl)).2 true (fun _ => Except.error ())⟩

/-- C9: in every non-terminal conversation state the /cancel fallback is
accepted and moves the session to the terminal state, returning the draft and
the store untouched (no store entry is added, modified or removed); after the
terminal state no intake handler processes any input. -/
theorem c9_cancel_frame (uid : ℕ) (σ : Store) (s : ConvState) (d : UserData)
    (hs : s ≠ ConvState.ended) :
    stepConv uid σ s d Input.cancel = some (ConvState.ended, d, σ) ∧
    (∀ (inp : Input) (d2 : UserData), stepConv uid σ ConvState.ended d2 inp = none) := by
  constructor
  · cases s <;> first | rfl | exact absurd rfl hs
  · intro inp d2
    cases inp <;> rfl

/-- C9 witness: cancelling from the age step of a session with one stored
profile leaves the store identical. -/
theorem c9_cancel_frame_witness :
    stepConv 1 [(2, sampleComplete)] ConvState.age {} Input.cancel =
      some (ConvState.ended, {}, [(2, sampleComplete)]) ∧
    stepConv 1 [(2, sampleComplete)] ConvState.ended {} Input.cancel = none :=
  ⟨(c9_cancel_frame 1 [(2, sampleComplete)] ConvState.age {} (by simp)).1,
   (c9_cancel_frame 1 [(2, sampleComplete)] ConvState.age {} (by simp)).2 Input.cancel {}⟩

/-- C8: when the collaborator call raises (unreachable, error, timeout),
generate_weekly_menu returns the fixed apology string instead of propagating
the exception (the embedding is total), the apology is truthy (nonempty), and
the /weekly_menu command on any stored complete profile sends the apology as
an ordinary message, leaving the session usable. -/
theorem c8_collaborator_failure (api : UserData → Except Unit String)
    (hfail : ∀ u, api u = Except.error ()) :
    (∀ user_data, generate_weekly_menu true api user_data = APOLOGY_MSG) ∧
    APOLOGY_MSG ≠ "" ∧
    (∀ (σ : Store) (uid : ℕ) (d : UserData) (c : ℚ), storeGet σ uid = some d →
      d.calories = some c →
      weekly_menu true api σ uid = WeeklyMenuReply.sent [APOLOGY_MSG.data]) := by
  have hne : APOLOGY_MSG ≠ "" := by decide
  refine ⟨?_, hne, ?_⟩
  · intro u
    simp [generate_weekly_menu, hfail u]
  · intro σ uid d c hd hc
    have h1 : generate_weekly_menu true api d = APOLOGY_MSG := by
      simp [generate_weekly_menu, hfail d]
    have h3 : messageParts APOLOGY_MSG.data = [APOLOGY_MSG.data] := by
      rw [messageParts, if_neg (by decide)]
    simp [weekly_menu, hd, hc, h1, hne, h3]

/-- C8 witness: a collaborator that always fails. -/
theorem c8_collaborator_failure_witness :
    generate_weekly_menu true (fun _ => Except.error ()) {} = APOLOGY_MSG :=
  (c8_collaborator_failure (fun _ => Except.error ()) (fun _ => rfl)).1 {}

/-- Unfolding equation for chunks4000. -/
theorem chunks4000_eq (l : List Char) :
    chunks4000 l = if l = [] then [] else l.take 4000 :: chunks4000 (l.drop 4000) := by
  rw [chunks4000]
  split <;> rfl

/-- chunks4000 of a nonempty list. -/
theorem chunks4000_cons (l : List Char) (h : l ≠ []) :
    chunks4000 l = l.take 4000 :: chunks4000 (l.drop 4000) := by
  rw [chunks4000_eq, if_neg h]

/-- Concatenating the chunks reproduces the input. -/
theorem chunks4000_join : ∀ (n : ℕ) (l : List Char), l.length ≤ n →
    (chunks4000 l).flatten = l := by
  intro n
  induction n with
  | zero =>
    intro l hl
    have : l = [] := List.eq_nil_of_length_eq_zero (Nat.le_zero.mp hl)
    subst this
    rw [chunks4000_eq]
    rfl
  | succ n ih =>
    intro l hl
    by_cases h : l = []
    · subst h
      rw [chunks4000_eq]
      rfl
    · rw [chunks4000_cons l h]
      have hpos : 0 < l.length := List.length_pos.mpr h
      have : (l.drop 4000).length ≤ n := by
        simp only [List.length_drop]
        omega
      rw [List.flatten_cons, ih (l.drop 4000) this, List.take_append_drop]

/-- Every chunk has length at most 4000. -/
theorem chunks4000_le : ∀ (n : ℕ) (l : List Char), l.length ≤ n →
    ∀ p ∈ chunks4000 l, p.length ≤ 4000 := by
  intro n
  induction n with
  | zero =>
    intro l hl p hp
    have : l = [] := List.eq_nil_of_length_eq_zero (Nat.le_zero.mp hl)
    subst this
    rw [chunks4000_eq] at hp
    simp at hp
  | succ n ih =>
    intro l hl p hp
    by_cases h : l = []
    · subst h
      rw [chunks4000_eq] at hp
      simp at hp
    · rw [chunks4000_cons l h] at hp
      have hpos : 0 < l.length := List.length_pos.mpr h
      rcases List.mem_cons.mp hp with h1 | h2
      · subst h1
        simp only [List.length_take]
        omega
      · exact ih (l.drop 4000) (by simp only [List.length_drop]; omega) p h2

/-- A 9000-character text splits into exactly three chunks. -/
theorem chunks4000_len9000 (l : List Char) (h : l.length = 9000) :
    (chunks4000 l).length = 3 := by
  have h1 : (l.drop 4000).length = 5000 := by simp [List.length_drop, h]
  have h2 : ((l.drop 4000).drop 4000).length = 1000 := by
    simp only [List.length_drop]
    omega
  have h3 : (((l.drop 4000).drop 4000).drop 4000).length = 0 := by
    simp only [List.length_drop]
    omega
  have e0 : chunks4000 l = l.take 4000 :: chunks4000 (l.drop 4000) :=
    chunks4000_cons l (by intro hn; rw [hn] at h; simp at h)
  have e1 : chunks4000 (l.drop 4000) =
      (l.drop 4000).take 4000 :: chunks4000 ((l.drop 4000).drop 4000) :=
    chunks4000_cons _ (by intro hn; rw [hn] at h1; simp at h1)
  have e2 : chunks4000 ((l.drop 4000).drop 4000) =
      ((l.drop 4000).drop 4000).take 4000 :: chunks4000 (((l.drop 4000).drop 4000).drop 4000) :=
    chunks4000_cons _ (by intro hn; rw [hn] at h2; simp at h2)
  have e3 : chunks4000 (((l.drop 4000).drop 4000).drop 4000) = [] := by
    rw [List.eq_nil_of_length_eq_zero h3, chunks4000_eq]
    rfl
  rw [e0, e1, e2, e3]
  rfl

/-- C6: the transport split produces ordered segments of length at most 4000
whose in-order concatenation reproduces the original text exactly, and a text
of length 9000 splits into exactly 3 segments. -/
theorem c6_chunking (l : List Char) :
    (messageParts l).flatten = l ∧
    (∀ p ∈ messageParts l, p.length ≤ 4000) ∧
    (l.length = 9000 → (messageParts l).length = 3) := by
  by_cases h : 4000 < l.length
  · refine ⟨?_, ?_, ?_⟩
    · rw [messageParts, if_pos h]
      exact chunks4000_join l.length l le_rfl
    · rw [messageParts, if_pos h]
      exact chunks4000_le l.length l le_rfl
    · intro h9
      rw [messageParts, if_pos h]
      exact chunks4000_len9000 l h9
  · refine ⟨?_, ?_, ?_⟩
    · rw [messageParts, if_neg h]
      simp
    · rw [messageParts, if_neg h]
      intro p hp
      rcases List.mem_singleton.mp hp with rfl
      omega
    · intro h9
      omega

/-- C6 witness: a concrete text of length 9000. -/
theorem c6_chunking_witness :
    (List.replicate 9000 'a').length = 9000 ∧
    (messageParts (List.replicate 9000 'a')).length = 3 :=
  ⟨by rw [List.length_replicate], (c6_chunking (List.replicate 9000 'a')).2.2 (by rw [List.length_replicate])⟩

/-- C2 counterexample: for a stored LoseWeight profile with a 2000 kcal
target the code computes fat from 30 percent (fat_grams = 0.3*2000/9 =
200/3), not the 35 percent of the claimed table (which would give
35/100*2000/9 = 700/9); likewise the Gain fat share is 40 percent, not 35. -/
theorem c2_percentages_counterexample :
    generate_diet [(1, loseEntry)] 1 = some (DietResult.plan
      { calories := 2000, protein_grams := 150, carb_grams := 175, fat_grams := 200/3,
        protein_percentage := 3/10, carb_percentage := 7/20, fat_percentage := 3/10 }) ∧
    (200 : ℚ)/3 ≠ 35/100 * 2000 / 9 ∧
    (3 : ℚ)/10 ≠ 35/100 := by
  refine ⟨?_, by norm_num, by norm_num⟩
  have h : generate_diet [(1, loseEntry)] 1 = some (DietResult.plan
      { calories := 2000, protein_grams := 0.3 * 2000 / 4, carb_grams := 0.35 * 2000 / 4,
        fat_grams := 0.3 * 2000 / 9, protein_percentage := 0.3, carb_percentage := 0.35,
        fat_percentage := 0.3 }) := rfl
  rw [h]
  simp only [Option.some.injEq, DietResult.plan.injEq, DietPlan.mk.injEq]
  norm_num

/-- C2 (amended): for every stored complete profile the /diet operation uses
the macro table LoseWeight 30/35/30, GainWeight 25/40/40, MaintainWeight
25/35/40 (protein/carb/fat percent), and converts to grams as
protein_g = (protein% * calories)/4, carb_g = (carb% * calories)/4,
fat_g = (fat% * calories)/9. -/
theorem c2_percentages_table (σ : Store) (uid : ℕ) (d : UserData) (g : String) (cal : ℚ)
    (hd : storeGet σ uid = some d) (hc : d.calories = some cal) (hg : d.goal = some g) :
    (g = "Lose weight" → generate_diet σ uid = some (DietResult.plan
      { calories := cal, protein_grams := 30/100 * cal / 4, carb_grams := 35/100 * cal / 4,
        fat_grams := 30/100 * cal / 9, protein_percentage := 30/100,
        carb_percentage := 35/100, fat_percentage := 30/100 })) ∧
    (g = "Gain weight" → generate_diet σ uid = some (DietResult.plan
      { calories := cal, protein_grams := 25/100 * cal / 4, carb_grams := 40/100 * cal / 4,
        fat_grams := 40/100 * cal / 9, protein_percentage := 25/100,
        carb_percentage := 40/100, fat_percentage := 40/100 })) ∧
    (g = "Maintain weight" → generate_diet σ uid = some (DietResult.plan
      { calories := cal, protein_grams := 25/100 * cal / 4, carb_grams := 35/100 * cal / 4,
        fat_grams := 40/100 * cal / 9, protein_percentage := 25/100,
        carb_percentage := 35/100, fat_percentage := 40/100 })) := by
  have e1 : ("Lose weight" : String) ≠ "Gain weight" := by decide
  have e2 : ("Gain weight" : String) ≠ "Lose weight" := by decide
  have e3 : ("Maintain weight" : String) ≠ "Lose weight" := by decide
  have e4 : ("Maintain weight" : String) ≠ "Gain weight" := by decide
  refine ⟨?_, ?_, ?_⟩ <;> intro hgoal <;> subst hgoal <;>
    simp only [generate_diet, hd, hc, hg] <;>
    norm_num [e1, e2, e3, e4]

/-- C2 witness: the amended table at the concrete LoseWeight entry. -/
theorem c2_percentages_table_witness :
    generate_diet [(1, loseEntry)] 1 = some (DietResult.plan
      { calories := 2000, protein_grams := 30/100 * 2000 / 4,
        carb_grams := 35/100 * 2000 / 4, fat_grams := 30/100 * 2000 / 9,
        protein_percentage := 30/100, carb_percentage := 35/100,
        fat_percentage := 30/100 }) :=
  (c2_percentages_table [(1, loseEntry)] 1 loseEntry "Lose weight" 2000 rfl rfl rfl).1 rfl

/-- Concrete run of the Calculation step: the sample draft with goal index 0
(Lose weight) completes to sampleComplete and stores it under the user id. -/
theorem sampleRun :
    goalSelect 1 [] sampleDraft 0 =
      some (ConvState.menuConfirm, sampleComplete, [(1, sampleComplete)]) := by
  have h0 : goalSelect 1 [] sampleDraft 0 = some (ConvState.menuConfirm,
      { gender := some "Male", age := some 30, weight := some 70, height := some 175,
        activity := some "Medium activity", goal := some "Lose weight",
        bmr := some (bmrOf "Male" 70 175 ((30 : ℤ) : ℚ)),
        tdee := some (bmrOf "Male" 70 175 ((30 : ℤ) : ℚ) * 1.55),
        calories := some (caloriesOf "Lose weight" (bmrOf "Male" 70 175 ((30 : ℤ) : ℚ) * 1.55)) },
      [(1,
      { gender := some "Male", age := some 30, weight := some 70, height := some 175,
        activity := some "Medium activity", goal := some "Lose weight",
        bmr := some (bmrOf "Male" 70 175 ((30 : ℤ) : ℚ)),
        tdee := some (bmrOf "Male" 70 175 ((30 : ℤ) : ℚ) * 1.55),
        calories := some (caloriesOf "Lose weight" (bmrOf "Male" 70 175 ((30 : ℤ) : ℚ) * 1.55)) })]) :=
    rfl
  have hb : bmrOf "Male" 70 175 ((30 : ℤ) : ℚ) = 6595 / 4 := by
    rw [bmrOf, if_pos rfl]
    norm_num
  have hcal : caloriesOf "Lose weight" ((6595 / 4 : ℚ) * 1.55) = 32889 / 16 := by
    rw [caloriesOf, if_pos rfl]
    norm_num
  rw [h0, hb, hcal]
  simp only [sampleComplete, Option.some.injEq, Prod.mk.injEq, UserData.mk.injEq,
    List.cons.injEq]
  norm_num

/-- C1: on every completed profile the Calculation step computes
bmr = 10*weight + 6.25*height - 5*age + 5 for gender Male and
10*weight + 6.25*height - 5*age - 161 for Female, tdee = bmr times the exact
multiplier of the chosen activity level, and the calorie target tdee - 500,
tdee + 500 or tdee according to the stored goal. -/
theorem c1_calculation (uid : ℕ) (σ : Store) (d : UserData) (idx : ℤ)
    (g act : String) (w h : ℚ) (a : ℤ) (m : ℚ)
    (s2 : ConvState) (d2 : UserData) (σ2 : Store)
    (hg : d.gender = some g) (ha : d.age = some a) (hw : d.weight = some w)
    (hh : d.height = some h) (hact : d.activity = some act)
    (hm : lookupActivity act = some m)
    (hstep : goalSelect uid σ d idx = some (s2, d2, σ2))
    (hdone : s2 = ConvState.menuConfirm) :
    ((g = "Male" → d2.bmr = some (10 * w + 6.25 * h - 5 * (a : ℚ) + 5)) ∧
     (g = "Female" → d2.bmr = some (10 * w + 6.25 * h - 5 * (a : ℚ) - 161))) ∧
    d2.tdee = some (bmrOf g w h (a : ℚ) * m) ∧
    ((d2.goal = some "Lose weight" → d2.calories = some (bmrOf g w h (a : ℚ) * m - 500)) ∧
     (d2.goal = some "Gain weight" → d2.calories = some (bmrOf g w h (a : ℚ) * m + 500)) ∧
     (d2.goal = some "Maintain weight" → d2.calories = some (bmrOf g w h (a : ℚ) * m))) := by
  subst hdone
  unfold goalSelect at hstep
  split at hstep
  · simp at hstep
  · simp only [hw, hh, ha, hg, hact, hm] at hstep
    simp only [Option.some.injEq, Prod.mk.injEq] at hstep
    obtain ⟨-, hd2, hσ2⟩ := hstep
    subst hd2
    refine ⟨⟨?_, ?_⟩, ?_, ?_, ?_, ?_⟩
    · intro e
      subst e
      simp [bmrOf]
    · intro e
      subst e
      simp only [bmrOf]
      rw [if_neg (by decide)]
    · rfl
    · intro e
      simp only [Option.some.injEq] at e
      simp only [e, caloriesOf]
      simp
    · intro e
      simp only [Option.some.injEq] at e
      simp only [e, caloriesOf]
      have : ("Gain weight" : String) ≠ "Lose weight" := by decide
      simp [this]
    · intro e
      simp only [Option.some.injEq] at e
      simp only [e, caloriesOf]
      have e1 : ("Maintain weight" : String) ≠ "Lose weight" := by decide
      have e2 : ("Maintain weight" : String) ≠ "Gain weight" := by decide
      simp [e1, e2]

/-- C1 witness: the sample run, gender Male, Medium activity, Lose weight. -/
theorem c1_calculation_witness :
    (("Male" = "Male" →
        sampleComplete.bmr = some (10 * 70 + 6.25 * 175 - 5 * ((30 : ℤ) : ℚ) + 5)) ∧
     ("Male" = "Female" →
        sampleComplete.bmr = some (10 * 70 + 6.25 * 175 - 5 * ((30 : ℤ) : ℚ) - 161))) ∧
    sampleComplete.tdee = some (bmrOf "Male" 70 175 ((30 : ℤ) : ℚ) * 1.55) ∧
    ((sampleComplete.goal = some "Lose weight" →
        sampleComplete.calories = some (bmrOf "Male" 70 175 ((30 : ℤ) : ℚ) * 1.55 - 500)) ∧
     (sampleComplete.goal = some "Gain weight" →
        sampleComplete.calories = some (bmrOf "Male" 70 175 ((30 : ℤ) : ℚ) * 1.55 + 500)) ∧
     (sampleComplete.goal = some "Maintain weight" →
        sampleComplete.calories = some (bmrOf "Male" 70 175 ((30 : ℤ) : ℚ) * 1.55))) :=
  c1_calculation 1 [] sampleDraft 0 "Male" "Medium activity" 70 175 30 1.55
    ConvState.menuConfirm sampleComplete [(1, sampleComplete)]
    rfl rfl rfl rfl rfl rfl sampleRun rfl

/-- Any valid index selects one of the three goal options. -/
theorem goal_options_cases (i : ℕ) (hI : i < goal_options.length) :
    goal_options[i] = "Lose weight" ∨ goal_options[i] = "Maintain weight" ∨
    goal_options[i] = "Gain weight" := by
  match i, hI with
  | 0, _ => exact Or.inl rfl
  | 1, _ => exact Or.inr (Or.inl rfl)
  | 2, _ => exact Or.inr (Or.inr rfl)
  | n + 3, h => exact absurd h (by simp [goal_options])

/-- C10: every entry the Calculation step writes to the store is the complete
profile it hands on: all six input fields and the three computed fields are
present, the stored goal is one of the three options, tdee is bmr times the
multiplier of the stored activity level, and the calorie target is
tdee - 500, tdee + 500 or tdee according to the stored goal. -/
theorem c10_completion_invariant (uid : ℕ) (σ : Store) (d : UserData) (idx : ℤ)
    (d2 : UserData) (σ2 : Store)
    (hstep : goalSelect uid σ d idx = some (ConvState.menuConfirm, d2, σ2)) :
    storeGet σ2 uid = some d2 ∧
    d2.gender.isSome ∧ d2.age.isSome ∧ d2.weight.isSome ∧ d2.height.isSome ∧
    d2.activity.isSome ∧ d2.goal.isSome ∧ d2.bmr.isSome ∧ d2.tdee.isSome ∧
    d2.calories.isSome ∧
    (d2.goal = some "Lose weight" ∨ d2.goal = some "Maintain weight" ∨
      d2.goal = some "Gain weight") ∧
    d2.tdee = ((d2.activity.bind lookupActivity).bind
      (fun mult => d2.bmr.map (fun b => b * mult))) ∧
    (d2.goal = some "Lose weight" → d2.calories = d2.tdee.map (fun t => t - 500)) ∧
    (d2.goal = some "Gain weight" → d2.calories = d2.tdee.map (fun t => t + 500)) ∧
    (d2.goal = some "Maintain weight" → d2.calories = d2.tdee) := by
  unfold goalSelect at hstep
  split at hstep
  · simp at hstep
  case _ hidx =>
    split at hstep
    case _ w ht a gen act heq1 heq2 heq3 heq4 heq5 =>
      split at hstep
      · simp at hstep
      case _ mult hmult =>
        simp only [Option.some.injEq, Prod.mk.injEq] at hstep
        obtain ⟨-, hd2, hσ2⟩ := hstep
        subst hd2
        subst hσ2
        simp only [heq1, heq2, heq3, heq4, heq5]
        refine ⟨storeGet_storePut σ uid _, rfl, rfl, rfl, rfl, rfl, rfl, rfl, rfl, rfl,
          ?_, ?_, ?_, ?_, ?_⟩
        · have hn : idx.toNat < goal_options.length := by
            push_neg at hidx
            have h3 : goal_options.length = 3 := rfl
            omega
          rcases goal_options_cases idx.toNat hn with h1 | h1 | h1 <;>
            simp only [List.get_eq_getElem] <;> simp [h1]
        · simp [hmult]
        · intro e
          simp only [Option.some.injEq] at e
          simp only [e, caloriesOf]
          simp
        · intro e
          simp only [Option.some.injEq] at e
          simp only [e, caloriesOf]
          have e1 : ("Gain weight" : String) ≠ "Lose weight" := by decide
          simp [e1]
        · intro e
          simp only [Option.some.injEq] at e
          simp only [e, caloriesOf]
          have e1 : ("Maintain weight" : String) ≠ "Lose weight" := by decide
          have e2 : ("Maintain weight" : String) ≠ "Gain weight" := by decide
          simp [e1, e2]
    · simp at hstep

/-- C10 witness: the sample run writes sampleComplete, which satisfies the
invariant. -/
theorem c10_completion_invariant_witness :
    storeGet [(1, sampleComplete)] 1 = some sampleComplete ∧
    sampleComplete.gender.isSome ∧ sampleComplete.age.isSome ∧
    sampleComplete.weight.isSome ∧ sampleComplete.height.isSome ∧
    sampleComplete.activity.isSome ∧ sampleComplete.goal.isSome ∧
    sampleComplete.bmr.isSome ∧ sampleComplete.tdee.isSome ∧
    sampleComplete.calories.isSome ∧
    (sampleComplete.goal = some "Lose weight" ∨
      sampleComplete.goal = some "Maintain weight" ∨
      sampleComplete.goal = some "Gain weight") ∧
    sampleComplete.tdee = ((sampleComplete.activity.bind lookupActivity).bind
      (fun mult => sampleComplete.bmr.map (fun b => b * mult))) ∧
    (sampleComplete.goal = some "Lose weight" →
      sampleComplete.calories = sampleComplete.tdee.map (fun t => t - 500)) ∧
    (sampleComplete.goal = some "Gain weight" →
      sampleComplete.calories = sampleComplete.tdee.map (fun t => t + 500)) ∧
    (sampleComplete.goal = some "Maintain weight" →
      sampleComplete.calories = sampleComplete.tdee) :=
  c10_completion_invariant 1 [] sampleDraft 0 sampleComplete [(1, sampleComplete)] sampleRun

/-- A sub pass is the identity on a text in which its pattern matches at no
position (the matcher returns none on every suffix). -/
theorem runSubFuel_no_match (f : List Char → Option (List Char × List Char)) :
    ∀ (l : List Char) (fuel : ℕ), l.length ≤ fuel → (∀ i, f (l.drop i) = none) →
    runSubFuel f fuel l = l := by
  intro l
  induction l with
  | nil =>
    intro fuel _ _
    cases fuel <;> rfl
  | cons c cs ih =>
    intro fuel hl hf
    cases fuel with
    | zero => simp at hl
    | succ n =>
      have h0 : f (c :: cs) = none := by
        have := hf 0
        simpa using this
      have hrec : runSubFuel f n cs = cs := by
        refine ih n (by simpa using hl) ?_
        intro i
        have := hf (i + 1)
        simpa [List.drop_succ_cons] using this
      simp [runSubFuel, h0, hrec]

/-- Lifting a position-bounded no-match hypothesis to all positions, given
that the matcher rejects the empty text. -/
theorem no_match_all (f : List Char → Option (List Char × List Char)) (l : List Char)
    (hnil : f [] = none) (h : ∀ i < l.length, f (l.drop i) = none) :
    ∀ i, f (l.drop i) = none := by
  intro i
  by_cases hi : i < l.length
  · exact h i hi
  · rw [List.drop_eq_nil_of_le (by omega)]
    exact hnil

/-- The formatter is the identity on a text that none of its eight rewrite
rules matches anywhere. -/
theorem format_plain_id (l : List Char)
    (h1 : ∀ i, headerSub (l.drop i) = none)
    (h2 : ∀ i, bulletSub (l.drop i) = none)
    (h3 : ∀ i, boldSub (l.drop i) = none)
    (h4 : ∀ i, starSub (l.drop i) = none)
    (h5 : ∀ i, underscoreSub (l.drop i) = none)
    (h6 : ∀ i, blankSub (l.drop i) = none)
    (h7 : ∀ i, altSub dayNames calendarEmoji (l.drop i) = none)
    (h8 : ∀ i, altSub mealNames mealEmoji (l.drop i) = none) :
    format_menu_as_plain_text l = l := by
  have e1 : runSub headerSub l = l := runSubFuel_no_match _ _ _ le_rfl h1
  have e2 : runSub bulletSub l = l := runSubFuel_no_match _ _ _ le_rfl h2
  have e3 : runSub boldSub l = l := runSubFuel_no_match _ _ _ le_rfl h3
  have e4 : runSub starSub l = l := runSubFuel_no_match _ _ _ le_rfl h4
  have e5 : runSub underscoreSub l = l := runSubFuel_no_match _ _ _ le_rfl h5
  have e6 : runSub blankSub l = l := runSubFuel_no_match _ _ _ le_rfl h6
  have e7 : runSub (altSub dayNames calendarEmoji) l = l := runSubFuel_no_match _ _ _ le_rfl h7
  have e8 : runSub (altSub mealNames mealEmoji) l = l := runSubFuel_no_match _ _ _ le_rfl h8
  rw [format_menu_as_plain_text, e1, e2, e3, e4, e5, e6, e7, e8]

/-- The whitespace consumed by the greedy backtracking search is nonempty. -/
theorem greedyNl_length : ∀ (cs r : List Char), greedyNl cs = some r → r.length < cs.length := by
  intro cs
  induction cs with
  | nil => intro r h; simp [greedyNl] at h
  | cons c rest ih =>
    intro r h
    simp only [greedyNl] at h
    by_cases hs : isSpaceChar c
    · rw [if_pos hs] at h
      cases hg : greedyNl rest with
      | some r2 =>
        rw [hg] at h
        have := ih r2 hg
        simp only [Option.some.injEq] at h
        subst h
        simp
        omega
      | none =>
        rw [hg] at h
        by_cases hc : c = '\n'
        · rw [if_pos hc] at h
          simp only [Option.some.injEq] at h
          subst h
          simp
        · rw [if_neg hc] at h
          exact absurd h (by simp)
    · rw [if_neg hs] at h
      exact absurd h (by simp)

/-- The remainder returned by the greedy search follows a newline of the
input at some position. -/
theorem greedyNl_some_drop : ∀ (cs r : List Char), greedyNl cs = some r →
    ∃ m, cs.drop m = '\n' :: r := by
  intro cs
  induction cs with
  | nil => intro r h; simp [greedyNl] at h
  | cons c rest ih =>
    intro r h
    simp only [greedyNl] at h
    by_cases hs : isSpaceChar c
    · rw [if_pos hs] at h
      cases hg : greedyNl rest with
      | some r2 =>
        rw [hg] at h
        simp only [Option.some.injEq] at h
        subst h
        obtain ⟨m, hm⟩ := ih r2 hg
        exact ⟨m + 1, by simpa [List.drop_succ_cons] using hm⟩
      | none =>
        rw [hg] at h
        by_cases hc : c = '\n'
        · rw [if_pos hc] at h
          simp only [Option.some.injEq] at h
          subst h
          subst hc
          exact ⟨0, rfl⟩
        · rw [if_neg hc] at h
          exact absurd h (by simp)
    · rw [if_neg hs] at h
      exact absurd h (by simp)

/-- After a newline the greedy search always succeeds. -/
theorem greedyNl_newline (ds : List Char) :
    greedyNl ('\n' :: ds) =
      match greedyNl ds with
      | some r => some r
      | none => some ds := by
  have hs : isSpaceChar '\n' = true := by decide
  simp only [greedyNl, hs, if_pos rfl]
  cases greedyNl ds <;> simp

/-- The remainder of a successful greedy search starts with no further
newline-bearing whitespace run. -/
theorem greedyNl_rest_none : ∀ (cs r : List Char), greedyNl cs = some r →
    greedyNl r = none := by
  intro cs
  induction cs with
  | nil => intro r h; simp [greedyNl] at h
  | cons c rest ih =>
    intro r h
    simp only [greedyNl] at h
    by_cases hs : isSpaceChar c
    · rw [if_pos hs] at h
      cases hg : greedyNl rest with
      | some r2 =>
        rw [hg] at h
        simp only [Option.some.injEq] at h
        subst h
        exact ih r2 hg
      | none =>
        rw [hg] at h
        by_cases hc : c = '\n'
        · rw [if_pos hc] at h
          simp only [Option.some.injEq] at h
          subst h
          exact hg
        · rw [if_neg hc] at h
          exact absurd h (by simp)
    · rw [if_neg hs] at h
      exact absurd h (by simp)

/-- A blank-line match consumes at least two characters. -/
theorem blankSub_shrink : ∀ (l out r : List Char), blankSub l = some (out, r) →
    r.length < l.length := by
  intro l out r h
  cases l with
  | nil => simp [blankSub] at h
  | cons c cs =>
    simp only [blankSub] at h
    by_cases hc : c = '\n'
    · rw [if_pos hc] at h
      cases hg : greedyNl cs with
      | some r2 =>
        rw [hg] at h
        simp at h
        obtain ⟨-, h2⟩ := h
        subst h2
        have := greedyNl_length cs r2 hg
        simp
        omega
      | none => rw [hg] at h; simp at h
    · rw [if_neg hc] at h
      simp at h

/-- Two sufficient fuels run a shrinking sub pass identically. -/
theorem runSubFuel_fuel_irrel (f : List Char → Option (List Char × List Char))
    (hf : ∀ l out rest, f l = some (out, rest) → rest.length < l.length) :
    ∀ (n : ℕ) (l : List Char) (fuel : ℕ), l.length ≤ n → l.length ≤ fuel →
      runSubFuel f fuel l = runSubFuel f l.length l := by
  intro n
  induction n with
  | zero =>
    intro l fuel h1 _
    have : l = [] := List.eq_nil_of_length_eq_zero (Nat.le_zero.mp h1)
    subst this
    cases fuel <;> rfl
  | succ n ih =>
    intro l fuel h1 h2
    cases l with
    | nil => cases fuel <;> rfl
    | cons c cs =>
      cases fuel with
      | zero => simp at h2
      | succ m =>
        simp only [List.length_cons, runSubFuel]
        cases hfc : f (c :: cs) with
        | none =>
          have e1 : runSubFuel f m cs = runSubFuel f cs.length cs :=
            ih cs m (by simpa using h1) (by simpa using h2)
          show c :: runSubFuel f m cs = c :: runSubFuel f cs.length cs
          rw [e1]
        | some pr =>
          obtain ⟨out, rest⟩ := pr
          have hr : rest.length < cs.length + 1 := by
            simpa using hf _ _ _ hfc
          have e1 : runSubFuel f m rest = runSubFuel f rest.length rest :=
            ih rest m (by simp at h1; omega) (by simp at h2; omega)
          have e2 : runSubFuel f cs.length rest = runSubFuel f rest.length rest :=
            ih rest cs.length (by simp at h1; omega) (by omega)
          show out ++ runSubFuel f m rest = out ++ runSubFuel f cs.length rest
          rw [e1, e2]

/-- Copy step of the blank-line pass. -/
theorem blankPass_cons_of_none (c : Char) (cs : List Char)
    (h : blankSub (c :: cs) = none) :
    runSub blankSub (c :: cs) = c :: runSub blankSub cs := by
  simp only [runSub, List.length_cons, runSubFuel, h]

/-- Rewrite step of the blank-line pass: a matched run collapses to a double
newline and the pass continues after the run. -/
theorem blankPass_cons_of_some (c : Char) (cs r : List Char)
    (h : blankSub (c :: cs) = some (['\n', '\n'], r)) :
    runSub blankSub (c :: cs) = '\n' :: '\n' :: runSub blankSub r := by
  have hr : r.length < cs.length + 1 := by simpa using blankSub_shrink _ _ _ h
  simp only [runSub, List.length_cons, runSubFuel, h]
  rw [runSubFuel_fuel_irrel blankSub blankSub_shrink cs.length r cs.length (by omega) (by omega)]
  rfl

/-- Copy step at a non-newline character. -/
theorem blankPass_cons_ne (c : Char) (cs : List Char) (hc : c ≠ '\n') :
    runSub blankSub (c :: cs) = c :: runSub blankSub cs :=
  blankPass_cons_of_none c cs (by simp [blankSub, hc])

/-- Copy step at a newline with no matching closing newline. -/
theorem blankPass_nl_none (cs : List Char) (hg : greedyNl cs = none) :
    runSub blankSub ('\n' :: cs) = '\n' :: runSub blankSub cs :=
  blankPass_cons_of_none _ cs (by simp [blankSub, hg])

/-- Rewrite step at a matched blank run. -/
theorem blankPass_nl_some (cs r : List Char) (hg : greedyNl cs = some r) :
    runSub blankSub ('\n' :: cs) = '\n' :: '\n' :: runSub blankSub r :=
  blankPass_cons_of_some _ cs r (by simp [blankSub, hg])

/-- If the leading whitespace run carries no newline pair, the same is true
after the blank-line pass. -/
theorem greedyNl_blankPass_none : ∀ (cs : List Char), greedyNl cs = none →
    greedyNl (runSub blankSub cs) = none := by
  intro cs
  induction cs with
  | nil => intro _; rfl
  | cons c rest ih =>
    intro h
    by_cases hc : c = '\n'
    · subst hc
      rw [greedyNl_newline] at h
      cases hg : greedyNl rest <;> rw [hg] at h <;> simp at h
    · rw [blankPass_cons_ne c rest hc]
      simp only [greedyNl] at h ⊢
      by_cases hs : isSpaceChar c
      · rw [if_pos hs] at h ⊢
        cases hg : greedyNl rest with
        | some r2 => rw [hg] at h; simp at h
        | none =>
          rw [ih hg]
          simp [hc]
      · rw [if_neg hs] at h ⊢

/-- The blank-line pass is idempotent on every text. -/
theorem blankPass_idem : ∀ (n : ℕ) (l : List Char), l.length ≤ n →
    runSub blankSub (runSub blankSub l) = runSub blankSub l := by
  intro n
  induction n with
  | zero =>
    intro l h
    have : l = [] := List.eq_nil_of_length_eq_zero (Nat.le_zero.mp h)
    subst this
    rfl
  | succ n ih =>
    intro l h
    cases l with
    | nil => rfl
    | cons c cs =>
      by_cases hc : c = '\n'
      · subst hc
        cases hg : greedyNl cs with
        | none =>
          rw [blankPass_nl_none cs hg, blankPass_nl_none _ (greedyNl_blankPass_none cs hg),
            ih cs (by simpa using h)]
        | some r =>
          have hrn : greedyNl (runSub blankSub r) = none :=
            greedyNl_blankPass_none r (greedyNl_rest_none cs r hg)
          have hlen : r.length ≤ n := by
            have := greedyNl_length cs r hg
            simp at h
            omega
          rw [blankPass_nl_some cs r hg]
          have hg2 : greedyNl ('\n' :: runSub blankSub r) = some (runSub blankSub r) := by
            rw [greedyNl_newline, hrn]
          rw [blankPass_nl_some _ _ hg2, ih r hlen]
      · rw [blankPass_cons_ne c cs hc]
        rw [blankPass_cons_ne c _ hc, ih cs (by simpa using h)]

/-- Every member occurs at some position, as the head of a drop. -/
theorem mem_exists_drop : ∀ (l : List Char) (a : Char), a ∈ l →
    ∃ j t, l.drop j = a :: t := by
  intro l
  induction l with
  | nil => intro a h; simp at h
  | cons c cs ih =>
    intro a h
    rcases List.mem_cons.mp h with h1 | h1
    · exact ⟨0, cs, by rw [h1, List.drop_zero]⟩
    · obtain ⟨j, t, hj⟩ := ih a h1
      exact ⟨j + 1, t, by simpa [List.drop_succ_cons] using hj⟩

/-- The blank-line pass introduces no character other than newlines. -/
theorem mem_blankPass : ∀ (n : ℕ) (l : List Char), l.length ≤ n →
    ∀ a ∈ runSub blankSub l, a ∈ l ∨ a = '\n' := by
  intro n
  induction n with
  | zero =>
    intro l h a ha
    have : l = [] := List.eq_nil_of_length_eq_zero (Nat.le_zero.mp h)
    subst this
    simp [runSub, runSubFuel] at ha
  | succ n ih =>
    intro l h a ha
    cases l with
    | nil => simp [runSub, runSubFuel] at ha
    | cons c cs =>
      by_cases hc : c = '\n'
      · subst hc
        cases hg : greedyNl cs with
        | none =>
          rw [blankPass_nl_none cs hg] at ha
          rcases List.mem_cons.mp ha with h1 | h1
          · exact Or.inr h1
          · rcases ih cs (by simpa using h) a h1 with h2 | h2
            · exact Or.inl (List.mem_cons_of_mem _ h2)
            · exact Or.inr h2
        | some r =>
          rw [blankPass_nl_some cs r hg] at ha
          rcases List.mem_cons.mp ha with h1 | h1
          · exact Or.inr h1
          rcases List.mem_cons.mp h1 with h2 | h2
          · exact Or.inr h2
          · have hlen : r.length ≤ n := by
              have := greedyNl_length cs r hg
              simp at h
              omega
            rcases ih r hlen a h2 with h3 | h3
            · obtain ⟨m, hm⟩ := greedyNl_some_drop cs r hg
              have hmem : a ∈ cs := by
                have hsub := List.drop_subset m cs
                rw [hm] at hsub
                exact hsub (List.mem_cons_of_mem _ h3)
              exact Or.inl (List.mem_cons_of_mem _ hmem)
            · exact Or.inr h3
      · rw [blankPass_cons_ne c cs hc] at ha
        rcases List.mem_cons.mp ha with h1 | h1
        · exact Or.inl (by rw [h1]; exact List.mem_cons_self c cs)
        · rcases ih cs (by simpa using h) a h1 with h2 | h2
          · exact Or.inl (List.mem_cons_of_mem _ h2)
          · exact Or.inr h2

/-- The blank-line pass preserves the first character. -/
theorem blankPass_head (c : Char) (cs : List Char) :
    ∃ t, runSub blankSub (c :: cs) = c :: t := by
  by_cases hc : c = '\n'
  · subst hc
    cases hg : greedyNl cs with
    | none => exact ⟨_, blankPass_nl_none cs hg⟩
    | some r => exact ⟨_, blankPass_nl_some cs r hg⟩
  · exact ⟨_, blankPass_cons_ne c cs hc⟩

/-- Dropping within the remainder returned by greedyNl is a drop within the
original list, one position past the newline found at position m. -/
theorem drop_shift (cs r : List Char) (m : ℕ) (hm : cs.drop m = '\n' :: r)
    (jr : ℕ) : cs.drop (m + 1 + jr) = r.drop jr := by
  have h1 : cs.drop (m + 1) = r := by
    have h2 := congrArg List.tail hm
    rw [List.tail_drop] at h2
    exact h2
  rw [← List.drop_drop jr (m + 1) cs, h1]

/-- Every adjacent character pair of the blank-line pass output, other than a
double newline, was an adjacent pair of the input. -/
theorem blankPass_adj : ∀ (n : ℕ) (l : List Char), l.length ≤ n →
    ∀ (x y : Char) (j : ℕ) (t : List Char),
      (runSub blankSub l).drop j = x :: y :: t →
      (x = '\n' ∧ y = '\n') ∨ ∃ (j2 : ℕ) (t2 : List Char), l.drop j2 = x :: y :: t2 := by
  intro n
  induction n with
  | zero =>
    intro l h x y j t hj
    have : l = [] := List.eq_nil_of_length_eq_zero (Nat.le_zero.mp h)
    subst this
    simp [runSub, runSubFuel] at hj
  | succ n ih =>
    intro l h x y j t hj
    cases l with
    | nil => simp [runSub, runSubFuel] at hj
    | cons c cs =>
      by_cases hc : c = '\n'
      · subst hc
        cases hg : greedyNl cs with
        | none =>
          rw [blankPass_nl_none cs hg] at hj
          cases j with
          | zero =>
            simp only [List.drop_zero, List.cons.injEq] at hj
            obtain ⟨hx, h2⟩ := hj
            cases cs with
            | nil => simp [runSub, runSubFuel] at h2
            | cons c2 cs2 =>
              obtain ⟨t2, ht2⟩ := blankPass_head c2 cs2
              rw [ht2] at h2
              obtain ⟨hy, -⟩ := List.cons.injEq .. |>.mp h2
              exact Or.inr ⟨0, cs2, by rw [← hx, ← hy, List.drop_zero]⟩
          | succ j2 =>
            simp only [List.drop_succ_cons] at hj
            rcases ih cs (by simpa using h) x y j2 t hj with h1 | ⟨j3, t3, h3⟩
            · exact Or.inl h1
            · exact Or.inr ⟨j3 + 1, t3, by simpa [List.drop_succ_cons] using h3⟩
        | some r =>
          rw [blankPass_nl_some cs r hg] at hj
          obtain ⟨m, hm⟩ := greedyNl_some_drop cs r hg
          cases j with
          | zero =>
            simp only [List.drop_zero, List.cons.injEq] at hj
            exact Or.inl ⟨hj.1.symm, hj.2.1.symm⟩
          | succ j2 =>
            cases j2 with
            | zero =>
              simp only [List.drop_succ_cons, List.drop_zero, List.cons.injEq] at hj
              obtain ⟨hx, h2⟩ := hj
              cases r with
              | nil => simp [runSub, runSubFuel] at h2
              | cons c2 r2 =>
                obtain ⟨t2, ht2⟩ := blankPass_head c2 r2
                rw [ht2] at h2
                obtain ⟨hy, -⟩ := List.cons.injEq .. |>.mp h2
                refine Or.inr ⟨m + 1, r2, ?_⟩
                simp only [List.drop_succ_cons]
                rw [hm, ← hx, ← hy]
            | succ j3 =>
              simp only [List.drop_succ_cons] at hj
              have hlen : r.length ≤ n := by
                have := greedyNl_length cs r hg
                simp at h
                omega
              rcases ih r hlen x y j3 t hj with h1 | ⟨jr, tr, hjr⟩
              · exact Or.inl h1
              · refine Or.inr ⟨m + 1 + jr + 1, tr, ?_⟩
                simp only [List.drop_succ_cons]
                rw [drop_shift cs r m hm jr, hjr]
      · rw [blankPass_cons_ne c cs hc] at hj
        cases j with
        | zero =>
          simp only [List.drop_zero, List.cons.injEq] at hj
          obtain ⟨hx, h2⟩ := hj
          cases cs with
          | nil => simp [runSub, runSubFuel] at h2
          | cons c2 cs2 =>
            obtain ⟨t2, ht2⟩ := blankPass_head c2 cs2
            rw [ht2] at h2
            obtain ⟨hy, -⟩ := List.cons.injEq .. |>.mp h2
            exact Or.inr ⟨0, cs2, by rw [← hx, ← hy, List.drop_zero]⟩
        | succ j2 =>
          simp only [List.drop_succ_cons] at hj
          rcases ih cs (by simpa using h) x y j2 t hj with h1 | ⟨j3, t3, h3⟩
          · exact Or.inl h1
          · exact Or.inr ⟨j3 + 1, t3, by simpa [List.drop_succ_cons] using h3⟩

/-- A newline-free prefix of the blank-line pass output is a verbatim prefix
of the input. -/
theorem blankPass_take_nnl : ∀ (n : ℕ) (l : List Char), l.length ≤ n →
    ∀ (k : ℕ), '\n' ∉ (runSub blankSub l).take k →
      (runSub blankSub l).take k = l.take k := by
  intro n
  induction n with
  | zero =>
    intro l h k _
    have : l = [] := List.eq_nil_of_length_eq_zero (Nat.le_zero.mp h)
    subst this
    rfl
  | succ n ih =>
    intro l h k hk
    cases l with
    | nil => rfl
    | cons c cs =>
      by_cases hc : c = '\n'
      · subst hc
        cases hg : greedyNl cs with
        | none =>
          rw [blankPass_nl_none cs hg] at hk ⊢
          cases k with
          | zero => rfl
          | succ k2 =>
            rw [List.take_succ_cons] at hk
            exact absurd (List.mem_cons_self _ _) hk
        | some r =>
          rw [blankPass_nl_some cs r hg] at hk ⊢
          cases k with
          | zero => rfl
          | succ k2 =>
            rw [List.take_succ_cons] at hk
            exact absurd (List.mem_cons_self _ _) hk
      · rw [blankPass_cons_ne c cs hc] at hk ⊢
        cases k with
        | zero => rfl
        | succ k2 =>
          simp only [List.take_succ_cons] at hk ⊢
          have hk2 : '\n' ∉ (runSub blankSub cs).take k2 := by
            intro hmem
            exact hk (List.mem_cons_of_mem _ hmem)
          rw [ih cs (by simpa using h) k2 hk2]

/-- A newline-free segment of the blank-line pass output occurs verbatim at
some position of the input. -/
theorem blankPass_seg : ∀ (n : ℕ) (l : List Char), l.length ≤ n →
    ∀ (i k : ℕ), '\n' ∉ ((runSub blankSub l).drop i).take k →
      ∃ j, ((runSub blankSub l).drop i).take k = (l.drop j).take k := by
  intro n
  induction n with
  | zero =>
    intro l h i k _
    have : l = [] := List.eq_nil_of_length_eq_zero (Nat.le_zero.mp h)
    subst this
    exact ⟨0, by simp [runSub, runSubFuel]⟩
  | succ n ih =>
    intro l h i k hk
    cases i with
    | zero =>
      refine ⟨0, ?_⟩
      simpa using blankPass_take_nnl (n + 1) l h k (by simpa using hk)
    | succ i2 =>
      cases l with
      | nil => exact ⟨0, by simp [runSub, runSubFuel]⟩
      | cons c cs =>
        by_cases hc : c = '\n'
        · subst hc
          cases hg : greedyNl cs with
          | none =>
            rw [blankPass_nl_none cs hg] at hk ⊢
            simp only [List.drop_succ_cons] at hk ⊢
            obtain ⟨j, hj⟩ := ih cs (by simpa using h) i2 k hk
            exact ⟨j + 1, by simpa [List.drop_succ_cons] using hj⟩
          | some r =>
            rw [blankPass_nl_some cs r hg] at hk ⊢
            obtain ⟨m, hm⟩ := greedyNl_some_drop cs r hg
            cases i2 with
            | zero =>
              cases k with
              | zero => exact ⟨0, rfl⟩
              | succ k2 =>
                simp only [List.drop_succ_cons, List.drop_zero, List.take_succ_cons] at hk
                exact absurd (List.mem_cons_self _ _) hk
            | succ i3 =>
              simp only [List.drop_succ_cons] at hk ⊢
              have hlen : r.length ≤ n := by
                have := greedyNl_length cs r hg
                simp at h
                omega
              obtain ⟨jr, hjr⟩ := ih r hlen i3 k hk
              refine ⟨m + 1 + jr + 1, ?_⟩
              simp only [List.drop_succ_cons]
              rw [drop_shift cs r m hm jr]
              exact hjr
        · rw [blankPass_cons_ne c cs hc] at hk ⊢
          simp only [List.drop_succ_cons] at hk ⊢
          obtain ⟨j, hj⟩ := ih cs (by simpa using h) i2 k hk
          exact ⟨j + 1, by simpa [List.drop_succ_cons] using hj⟩

/-- Splitting a take of a list at a position where a given segment starts. -/
theorem eq_append_of_take_eq (t s : List Char) (k : ℕ) (h : t.take k = s)
    (hl : s.length = k) : t = s ++ t.drop k := by
  conv_lhs => rw [← List.take_append_drop k t]
  rw [h]

/-- A successful header match starts with a hash character. -/
theorem headerSub_some_head : ∀ (t : List Char), headerSub t ≠ none →
    ∃ cs, t = '#' :: cs := by
  intro t hne
  cases t with
  | nil => exact absurd rfl hne
  | cons c cs =>
    by_cases hc : c = '#'
    · exact ⟨cs, by rw [hc]⟩
    · exact absurd (by simp [headerSub, hc]) hne

/-- A successful bullet match starts with a star or dash followed by a
whitespace character, and any text of that shape matches. -/
theorem bulletSub_pos (c c2 : Char) (cs : List Char) (hcond : c = '*' ∨ c = '-')
    (hsp : isSpaceChar c2 = true) :
    bulletSub (c :: c2 :: cs) = some (['-', ' '], cs.dropWhile isSpaceChar) := by
  rcases hcond with h' | h' <;> subst h' <;> simp [bulletSub, hsp]

/-- Shape of a successful bullet match. -/
theorem bulletSub_some_shape : ∀ (t : List Char), bulletSub t ≠ none →
    ∃ c c2 cs, t = c :: c2 :: cs ∧ (c = '*' ∨ c = '-') ∧ isSpaceChar c2 = true := by
  intro t hne
  match t with
  | [] => exact absurd rfl hne
  | [c] => exact absurd rfl hne
  | c :: c2 :: cs =>
    by_cases hcond : (c = '*' ∨ c = '-') ∧ isSpaceChar c2
    · exact ⟨c, c2, cs, rfl, hcond.1, hcond.2⟩
    · exact absurd (by simp only [bulletSub]; rw [if_neg hcond]) hne

/-- The text scanned by a successful lazy single-delimiter search splits as a
newline-free span followed by the delimiter and the remainder. -/
theorem findInlineClose_spec (d : Char) : ∀ (t acc cap r : List Char),
    findInlineClose d acc t = some (cap, r) →
    ∃ u, t = u ++ d :: r ∧ '\n' ∉ u := by
  intro t
  induction t with
  | nil => intro acc cap r h; exact absurd h (by simp [findInlineClose])
  | cons c rest ih =>
    intro acc cap r h
    by_cases hc : c = d
    · simp only [findInlineClose] at h
      rw [if_pos hc] at h
      obtain ⟨-, hr⟩ := Prod.mk.injEq .. |>.mp (Option.some.injEq .. |>.mp h)
      exact ⟨[], by rw [hc, hr]; rfl, by simp⟩
    · simp only [findInlineClose] at h
      rw [if_neg hc] at h
      by_cases hnl : c = '\n'
      · rw [if_pos hnl] at h
        exact absurd h (by simp)
      · rw [if_neg hnl] at h
        obtain ⟨u, hu, hnn⟩ := ih (c :: acc) cap r h
        refine ⟨c :: u, by rw [hu]; rfl, ?_⟩
        intro hm
        rcases List.mem_cons.mp hm with h1 | h1
        · exact hnl h1.symm
        · exact hnn h1

/-- The lazy single-delimiter search succeeds on any text holding the
delimiter past a newline-free span. -/
theorem findInlineClose_isSome (d : Char) (u : List Char) (hnn : '\n' ∉ u) :
    ∀ (acc r : List Char), (findInlineClose d acc (u ++ d :: r)).isSome := by
  induction u with
  | nil =>
    intro acc r
    simp [findInlineClose]
  | cons c u2 ih =>
    intro acc r
    have hnl : c ≠ '\n' := fun hh => hnn (by rw [← hh]; exact List.mem_cons_self c u2)
    have hnn2 : '\n' ∉ u2 := fun hh => hnn (List.mem_cons_of_mem _ hh)
    by_cases hc : c = d
    · simp [findInlineClose, hc]
    · simp only [List.cons_append, findInlineClose]
      rw [if_neg hc, if_neg hnl]
      exact ih hnn2 (c :: acc) r

/-- The text scanned by a successful lazy bold-closer search splits as a
newline-free span followed by the double star and the remainder. -/
theorem findBoldClose_spec : ∀ (t acc cap r : List Char),
    findBoldClose acc t = some (cap, r) →
    ∃ u, t = u ++ '*' :: '*' :: r ∧ '\n' ∉ u := by
  intro t
  induction t with
  | nil => intro acc cap r h; exact absurd h (by simp [findBoldClose])
  | cons c rest ih =>
    intro acc cap r h
    by_cases h2 : c = '*' ∧ rest.head? = some '*'
    · simp only [findBoldClose] at h
      rw [if_pos h2] at h
      obtain ⟨-, hr⟩ := Prod.mk.injEq .. |>.mp (Option.some.injEq .. |>.mp h)
      obtain ⟨hc, hh⟩ := h2
      cases rest with
      | nil => simp at hh
      | cons d ds =>
        have hd : d = '*' := by simpa using hh
        have hr2 : ds = r := hr
        refine ⟨[], ?_, by simp⟩
        rw [hc, hd, hr2, List.nil_append]
    · simp only [findBoldClose] at h
      rw [if_neg h2] at h
      by_cases hnl : c = '\n'
      · rw [if_pos hnl] at h
        exact absurd h (by simp)
      · rw [if_neg hnl] at h
        obtain ⟨u, hu, hnn⟩ := ih (c :: acc) cap r h
        refine ⟨c :: u, by rw [hu]; rfl, ?_⟩
        intro hm
        rcases List.mem_cons.mp hm with h1 | h1
        · exact hnl h1.symm
        · exact hnn h1

/-- The lazy bold-closer search succeeds on any text holding a double star
past a newline-free span. -/
theorem findBoldClose_isSome (u : List Char) (hnn : '\n' ∉ u) :
    ∀ (acc r : List Char), (findBoldClose acc (u ++ '*' :: '*' :: r)).isSome := by
  induction u with
  | nil =>
    intro acc r
    simp [findBoldClose]
  | cons c u2 ih =>
    intro acc r
    have hnl : c ≠ '\n' := fun hh => hnn (by rw [← hh]; exact List.mem_cons_self c u2)
    have hnn2 : '\n' ∉ u2 := fun hh => hnn (List.mem_cons_of_mem _ hh)
    by_cases h2 : c = '*' ∧ (u2 ++ '*' :: '*' :: r).head? = some '*'
    · simp [findBoldClose, h2]
    · have hstep : findBoldClose acc ((c :: u2) ++ '*' :: '*' :: r) =
          findBoldClose (c :: acc) (u2 ++ '*' :: '*' :: r) := by
        show (if c = '*' ∧ (u2 ++ '*' :: '*' :: r).head? = some '*' then
            some (acc.reverse, (u2 ++ '*' :: '*' :: r).tail)
          else if c = '\n' then none
          else findBoldClose (c :: acc) (u2 ++ '*' :: '*' :: r)) =
          findBoldClose (c :: acc) (u2 ++ '*' :: '*' :: r)
        rw [if_neg h2, if_neg hnl]
      rw [hstep]
      exact ih hnn2 (c :: acc) r

/-- A successful case-insensitive match splits the text at the match, whose
characters agree with the pattern up to lowercasing. -/
theorem matchCaseIns_spec : ∀ (p t m r : List Char), matchCaseIns p t = some (m, r) →
    t = m ++ r ∧ List.Forall₂ (fun pc c => c.toLower = pc.toLower) p m := by
  intro p
  induction p with
  | nil =>
    intro t m r h
    simp only [matchCaseIns, Option.some.injEq, Prod.mk.injEq] at h
    obtain ⟨hm, hr⟩ := h
    rw [← hm, ← hr]
    exact ⟨rfl, List.Forall₂.nil⟩
  | cons pc p2 ih =>
    intro t m r h
    cases t with
    | nil => exact absurd h (by simp [matchCaseIns])
    | cons c cs =>
      simp only [matchCaseIns] at h
      by_cases hrel : c.toLower = pc.toLower
      · rw [if_pos hrel] at h
        cases hm : matchCaseIns p2 cs with
        | none => rw [hm] at h; exact absurd h (by simp)
        | some pr =>
          obtain ⟨m2, r2⟩ := pr
          rw [hm] at h
          have h3 : ((c :: m2 : List Char), r2) = (m, r) :=
            Option.some.injEq .. |>.mp h
          obtain ⟨hm1, hr1⟩ := Prod.mk.injEq .. |>.mp h3
          obtain ⟨ht, hf⟩ := ih cs m2 r2 hm
          rw [← hm1, ← hr1]
          exact ⟨by rw [ht]; rfl, List.Forall₂.cons hrel hf⟩
      · rw [if_neg hrel] at h
        exact absurd h (by simp)

/-- Converse: a text beginning with characters that agree with the pattern up
to lowercasing matches case-insensitively. -/
theorem matchCaseIns_of_forall (p m : List Char)
    (hf : List.Forall₂ (fun pc c => c.toLower = pc.toLower) p m) :
    ∀ r, matchCaseIns p (m ++ r) = some (m, r) := by
  induction hf with
  | nil => intro r; rfl
  | @cons pc c p2 m2 hrel hf2 ih =>
    intro r
    have hstep : matchCaseIns (pc :: p2) ((c :: m2) ++ r) =
        Option.map (fun pr => (c :: pr.1, pr.2)) (matchCaseIns p2 (m2 ++ r)) := by
      show (if c.toLower = pc.toLower then
          Option.map (fun pr => (c :: pr.1, pr.2)) (matchCaseIns p2 (m2 ++ r))
        else none) =
        Option.map (fun pr => (c :: pr.1, pr.2)) (matchCaseIns p2 (m2 ++ r))
      rw [if_pos hrel]
    rw [hstep, ih r]
    rfl

/-- A pairwise-related list takes each member from a related pattern entry. -/
theorem forall_mem_right {R : Char → Char → Prop} :
    ∀ {p m : List Char}, List.Forall₂ R p m → ∀ c ∈ m, ∃ pc ∈ p, R pc c := by
  intro p m hf
  induction hf with
  | nil => intro c hc; simp at hc
  | cons hrel hf2 ih =>
    intro c hc
    rcases List.mem_cons.mp hc with h1 | h1
    · exact ⟨_, List.mem_cons_self _ _, h1 ▸ hrel⟩
    · obtain ⟨pc, hpc, hr⟩ := ih c h1
      exact ⟨pc, List.mem_cons_of_mem _ hpc, hr⟩

/-- A successful alternation match comes from one of the alternatives. -/
theorem tryAlts_some : ∀ (pats : List (List Char)) (t : List Char)
    (pr : List Char × List Char), tryAlts pats t = some pr →
    ∃ p ∈ pats, matchCaseIns p t = some pr := by
  intro pats
  induction pats with
  | nil => intro t pr h; exact absurd h (by simp [tryAlts])
  | cons p ps ih =>
    intro t pr h
    simp only [tryAlts] at h
    cases hm : matchCaseIns p t with
    | some pr2 =>
      rw [hm] at h
      have h2 : some pr2 = some pr := h
      exact ⟨p, List.mem_cons_self _ _, hm.trans h2⟩
    | none =>
      rw [hm] at h
      have h2 : tryAlts ps t = some pr := h
      obtain ⟨q, hq, hq2⟩ := ih t pr h2
      exact ⟨q, List.mem_cons_of_mem _ hq, hq2⟩

/-- A failed alternation means every alternative fails. -/
theorem tryAlts_none : ∀ (pats : List (List Char)) (t : List Char),
    tryAlts pats t = none → ∀ p ∈ pats, matchCaseIns p t = none := by
  intro pats
  induction pats with
  | nil => intro t _ p hp; simp at hp
  | cons q ps ih =>
    intro t h p hp
    simp only [tryAlts] at h
    cases hm : matchCaseIns q t with
    | some pr2 =>
      rw [hm] at h
      have h2 : some pr2 = (none : Option (List Char × List Char)) := h
      exact absurd h2 (by simp)
    | none =>
      rw [hm] at h
      have h2 : tryAlts ps t = none := h
      rcases List.mem_cons.mp hp with h1 | h1
      · rw [h1]; exact hm
      · exact ih t h2 p h1

/-- No lowercased character of a day-name or meal-name alternative is a
newline. -/
theorem alt_pat_no_newline :
    (∀ p ∈ dayNames, ∀ c ∈ p, c.toLower ≠ '\n') ∧
    (∀ p ∈ mealNames, ∀ c ∈ p, c.toLower ≠ '\n') := by
  decide

/-- The header rule never matches in the output of the blank-line pass when
it matches nowhere in its input. -/
theorem headerSub_transfer (l : List Char) (h : ∀ i, headerSub (l.drop i) = none) :
    ∀ i, headerSub ((runSub blankSub l).drop i) = none := by
  intro i
  by_contra hne
  obtain ⟨cs, hcs⟩ := headerSub_some_head _ hne
  have hmem : '#' ∈ runSub blankSub l := by
    have hsub := List.drop_subset i (runSub blankSub l)
    rw [hcs] at hsub
    exact hsub (List.mem_cons_self _ _)
  rcases mem_blankPass l.length l le_rfl '#' hmem with hm | hm
  · obtain ⟨j, t, hj⟩ := mem_exists_drop l '#' hm
    have hz := h j
    rw [hj] at hz
    simp [headerSub] at hz
  · exact absurd hm (by decide)

/-- The bullet rule never matches in the output of the blank-line pass when
it matches nowhere in its input. -/
theorem bulletSub_transfer (l : List Char) (h : ∀ i, bulletSub (l.drop i) = none) :
    ∀ i, bulletSub ((runSub blankSub l).drop i) = none := by
  intro i
  by_contra hne
  obtain ⟨c, c2, cs, hcs, hcond, hsp⟩ := bulletSub_some_shape _ hne
  rcases blankPass_adj l.length l le_rfl c c2 i cs hcs with ⟨hc1, -⟩ | ⟨j, t2, hj⟩
  · rcases hcond with h' | h' <;> rw [h'] at hc1 <;> exact absurd hc1 (by decide)
  · have hz := h j
    rw [hj, bulletSub_pos c c2 t2 hcond hsp] at hz
    exact absurd hz (by simp)

/-- The bold rule never matches in the output of the blank-line pass when it
matches nowhere in its input. -/
theorem boldSub_transfer (l : List Char) (h : ∀ i, boldSub (l.drop i) = none) :
    ∀ i, boldSub ((runSub blankSub l).drop i) = none := by
  intro i
  by_contra hne
  cases ht : (runSub blankSub l).drop i with
  | nil => rw [ht] at hne; exact hne rfl
  | cons c rest0 =>
    cases rest0 with
    | nil => rw [ht] at hne; exact hne rfl
    | cons c2 rest =>
      rw [ht] at hne
      by_cases hc : c = '*' ∧ c2 = '*'
      · obtain ⟨hc1, hc2⟩ := hc
        cases hf : findBoldClose [] rest with
        | none =>
          refine hne ?_
          simp only [boldSub]
          rw [if_pos ⟨hc1, hc2⟩]
          exact hf
        | some pr =>
          obtain ⟨cap, r⟩ := pr
          obtain ⟨u, hu, hnn⟩ := findBoldClose_spec rest [] cap r hf
          have hspan : ((runSub blankSub l).drop i).take (u.length + 4) =
              '*' :: '*' :: (u ++ ['*', '*']) := by
            rw [ht, hu, hc1, hc2]
            have h4 : u.length + 4 = (u.length + 2) + 1 + 1 := by omega
            rw [h4, List.take_succ_cons, List.take_succ_cons, List.take_append]
            simp
          have hnns : '\n' ∉ ((runSub blankSub l).drop i).take (u.length + 4) := by
            rw [hspan]
            intro hmem
            rcases List.mem_cons.mp hmem with h1 | h1
            · exact absurd h1 (by decide)
            rcases List.mem_cons.mp h1 with h2 | h2
            · exact absurd h2 (by decide)
            rcases List.mem_append.mp h2 with h3 | h3
            · exact hnn h3
            · exact absurd h3 (by decide)
          obtain ⟨j, hj⟩ := blankPass_seg l.length l le_rfl i (u.length + 4) hnns
          rw [hspan] at hj
          have hlen : ('*' :: '*' :: (u ++ ['*', '*'])).length = u.length + 4 := by
            simp
          have hshape := eq_append_of_take_eq (l.drop j) _ (u.length + 4) hj.symm hlen
          have hz := h j
          rw [hshape] at hz
          have hpos : (boldSub ('*' :: '*' :: (u ++ ['*', '*']) ++
              (l.drop j).drop (u.length + 4))).isSome := by
            have hre : '*' :: '*' :: (u ++ ['*', '*']) ++ (l.drop j).drop (u.length + 4) =
                '*' :: '*' :: (u ++ '*' :: '*' :: (l.drop j).drop (u.length + 4)) := by
              simp
            rw [hre]
            simpa [boldSub] using
              findBoldClose_isSome u hnn [] ((l.drop j).drop (u.length + 4))
          rw [hz] at hpos
          exact absurd hpos (by simp)
      · refine hne ?_
        simp only [boldSub]
        rw [if_neg hc]

/-- The italic-star rule never matches in the output of the blank-line pass
when it matches nowhere in its input. -/
theorem starSub_transfer (l : List Char) (h : ∀ i, starSub (l.drop i) = none) :
    ∀ i, starSub ((runSub blankSub l).drop i) = none := by
  intro i
  by_contra hne
  cases ht : (runSub blankSub l).drop i with
  | nil => rw [ht] at hne; exact hne rfl
  | cons c rest =>
    rw [ht] at hne
    by_cases hc : c = '*'
    · cases hf : findInlineClose '*' [] rest with
      | none =>
        refine hne ?_
        simp only [starSub]
        rw [if_pos hc]
        exact hf
      | some pr =>
        obtain ⟨cap, r⟩ := pr
        obtain ⟨u, hu, hnn⟩ := findInlineClose_spec '*' rest [] cap r hf
        have hspan : ((runSub blankSub l).drop i).take (u.length + 2) =
            '*' :: (u ++ ['*']) := by
          rw [ht, hu, hc]
          have h2 : u.length + 2 = (u.length + 1) + 1 := rfl
          rw [h2, List.take_succ_cons, List.take_append]
          rfl
        have hnns : '\n' ∉ ((runSub blankSub l).drop i).take (u.length + 2) := by
          rw [hspan]
          intro hmem
          rcases List.mem_cons.mp hmem with h1 | h1
          · exact absurd h1 (by decide)
          rcases List.mem_append.mp h1 with h3 | h3
          · exact hnn h3
          · exact absurd h3 (by decide)
        obtain ⟨j, hj⟩ := blankPass_seg l.length l le_rfl i (u.length + 2) hnns
        rw [hspan] at hj
        have hlen : ('*' :: (u ++ ['*'])).length = u.length + 2 := by
          simp
        have hshape := eq_append_of_take_eq (l.drop j) _ (u.length + 2) hj.symm hlen
        have hz := h j
        rw [hshape] at hz
        have hpos : (starSub ('*' :: (u ++ ['*']) ++
            (l.drop j).drop (u.length + 2))).isSome := by
          have hre : '*' :: (u ++ ['*']) ++ (l.drop j).drop (u.length + 2) =
              '*' :: (u ++ '*' :: (l.drop j).drop (u.length + 2)) := by
            simp
          rw [hre]
          simpa [starSub] using
            findInlineClose_isSome '*' u hnn [] ((l.drop j).drop (u.length + 2))
        rw [hz] at hpos
        exact absurd hpos (by simp)
    · refine hne ?_
      simp only [starSub]
      rw [if_neg hc]

/-- The underscore rule never matches in the output of the blank-line pass
when it matches nowhere in its input. -/
theorem underscoreSub_transfer (l : List Char) (h : ∀ i, underscoreSub (l.drop i) = none) :
    ∀ i, underscoreSub ((runSub blankSub l).drop i) = none := by
  intro i
  by_contra hne
  cases ht : (runSub blankSub l).drop i with
  | nil => rw [ht] at hne; exact hne rfl
  | cons c rest =>
    rw [ht] at hne
    by_cases hc : c = '_'
    · cases hf : findInlineClose '_' [] rest with
      | none =>
        refine hne ?_
        simp only [underscoreSub]
        rw [if_pos hc]
        exact hf
      | some pr =>
        obtain ⟨cap, r⟩ := pr
        obtain ⟨u, hu, hnn⟩ := findInlineClose_spec '_' rest [] cap r hf
        have hspan : ((runSub blankSub l).drop i).take (u.length + 2) =
            '_' :: (u ++ ['_']) := by
          rw [ht, hu, hc]
          have h2 : u.length + 2 = (u.length + 1) + 1 := rfl
          rw [h2, List.take_succ_cons, List.take_append]
          rfl
        have hnns : '\n' ∉ ((runSub blankSub l).drop i).take (u.length + 2) := by
          rw [hspan]
          intro hmem
          rcases List.mem_cons.mp hmem with h1 | h1
          · exact absurd h1 (by decide)
          rcases List.mem_append.mp h1 with h3 | h3
          · exact hnn h3
          · exact absurd h3 (by decide)
        obtain ⟨j, hj⟩ := blankPass_seg l.length l le_rfl i (u.length + 2) hnns
        rw [hspan] at hj
        have hlen : ('_' :: (u ++ ['_'])).length = u.length + 2 := by
          simp
        have hshape := eq_append_of_take_eq (l.drop j) _ (u.length + 2) hj.symm hlen
        have hz := h j
        rw [hshape] at hz
        have hpos : (underscoreSub ('_' :: (u ++ ['_']) ++
            (l.drop j).drop (u.length + 2))).isSome := by
          have hre : '_' :: (u ++ ['_']) ++ (l.drop j).drop (u.length + 2) =
              '_' :: (u ++ '_' :: (l.drop j).drop (u.length + 2)) := by
            simp
          rw [hre]
          simpa [underscoreSub] using
            findInlineClose_isSome '_' u hnn [] ((l.drop j).drop (u.length + 2))
        rw [hz] at hpos
        exact absurd hpos (by simp)
    · refine hne ?_
      simp only [underscoreSub]
      rw [if_neg hc]

/-- The day- and meal-name alternation rules never match in the output of the
blank-line pass when they match nowhere in its input. -/
theorem altSub_transfer (pats : List (List Char)) (deco : List Char)
    (hpat : ∀ p ∈ pats, ∀ c ∈ p, c.toLower ≠ '\n')
    (l : List Char) (h : ∀ i, altSub pats deco (l.drop i) = none) :
    ∀ i, altSub pats deco ((runSub blankSub l).drop i) = none := by
  intro i
  by_contra hne
  have htry : tryAlts pats ((runSub blankSub l).drop i) ≠ none := by
    intro hh
    exact hne (by simp [altSub, hh])
  cases htr : tryAlts pats ((runSub blankSub l).drop i) with
  | none => exact htry htr
  | some pr =>
    obtain ⟨m, r⟩ := pr
    obtain ⟨p, hp, hmatch⟩ := tryAlts_some pats _ (m, r) htr
    obtain ⟨hsplit, hf⟩ := matchCaseIns_spec p _ m r hmatch
    have hnnm : '\n' ∉ m := by
      intro hmem
      obtain ⟨pc, hpc, hrel⟩ := forall_mem_right hf '\n' hmem
      have : pc.toLower = '\n' := by
        have hnl : ('\n' : Char).toLower = '\n' := by decide
        rw [← hrel, hnl]
      exact hpat p hp pc hpc this
    have hspan : ((runSub blankSub l).drop i).take m.length = m := by
      rw [hsplit]
      exact List.take_left m r
    have hnns : '\n' ∉ ((runSub blankSub l).drop i).take m.length := by
      rw [hspan]
      exact hnnm
    obtain ⟨j, hj⟩ := blankPass_seg l.length l le_rfl i m.length hnns
    rw [hspan] at hj
    have hshape := eq_append_of_take_eq (l.drop j) m m.length hj.symm rfl
    have hz := h j
    have hz2 : tryAlts pats (l.drop j) = none := by
      cases htr2 : tryAlts pats (l.drop j) with
      | none => rfl
      | some pr2 =>
        rw [altSub, htr2] at hz
        exact absurd hz (by simp)
    have hmatch2 := tryAlts_none pats (l.drop j) hz2 p hp
    rw [hshape, matchCaseIns_of_forall p m hf ((l.drop j).drop m.length)] at hmatch2
    exact absurd hmatch2 (by simp)

/-- On input whose markdown-stripping rules all fail everywhere, the
formatter reduces to the blank-line pass alone: every other pass is the
identity there, including the decoration passes downstream of it. -/
theorem format_reduces_to_blankPass (l : List Char)
    (h1 : ∀ i, headerSub (l.drop i) = none)
    (h2 : ∀ i, bulletSub (l.drop i) = none)
    (h3 : ∀ i, boldSub (l.drop i) = none)
    (h4 : ∀ i, starSub (l.drop i) = none)
    (h5 : ∀ i, underscoreSub (l.drop i) = none)
    (h7 : ∀ i, altSub dayNames calendarEmoji (l.drop i) = none)
    (h8 : ∀ i, altSub mealNames mealEmoji (l.drop i) = none) :
    format_menu_as_plain_text l = runSub blankSub l := by
  have e1 : runSub headerSub l = l := runSubFuel_no_match _ _ _ le_rfl h1
  have e2 : runSub bulletSub l = l := runSubFuel_no_match _ _ _ le_rfl h2
  have e3 : runSub boldSub l = l := runSubFuel_no_match _ _ _ le_rfl h3
  have e4 : runSub starSub l = l := runSubFuel_no_match _ _ _ le_rfl h4
  have e5 : runSub underscoreSub l = l := runSubFuel_no_match _ _ _ le_rfl h5
  have e7 : runSub (altSub dayNames calendarEmoji) (runSub blankSub l) =
      runSub blankSub l :=
    runSubFuel_no_match _ _ _ le_rfl
      (altSub_transfer dayNames calendarEmoji alt_pat_no_newline.1 l h7)
  have e8 : runSub (altSub mealNames mealEmoji) (runSub blankSub l) =
      runSub blankSub l :=
    runSubFuel_no_match _ _ _ le_rfl
      (altSub_transfer mealNames mealEmoji alt_pat_no_newline.2 l h8)
  rw [format_menu_as_plain_text, e1, e2, e3, e4, e5, e7, e8]

/-- C7 counterexample: the formatter is not idempotent on the already-plain
text "Monday": one application prepends one calendar emoji, a second
application prepends another. -/
theorem c7_idempotence_counterexample :
    format_menu_as_plain_text (format_menu_as_plain_text "Monday".data) ≠
      format_menu_as_plain_text "Monday".data := by
  decide

/-- C7 (amended): the formatter is idempotent on plain text that none of the
markdown-stripping rules matches (no header, bullet, bold, italic-star or
underscore construct; whitespace, newlines and blank-line runs are
unrestricted) and that contains no case-insensitive occurrence of a day name
or meal name; it is not idempotent in general: on plain text containing a day
or meal name each application prepends one more decoration emoji. -/
theorem c7_format_idempotent (l : List Char)
    (h1 : ∀ i < l.length, headerSub (l.drop i) = none)
    (h2 : ∀ i < l.length, bulletSub (l.drop i) = none)
    (h3 : ∀ i < l.length, boldSub (l.drop i) = none)
    (h4 : ∀ i < l.length, starSub (l.drop i) = none)
    (h5 : ∀ i < l.length, underscoreSub (l.drop i) = none)
    (h7 : ∀ i < l.length, altSub dayNames calendarEmoji (l.drop i) = none)
    (h8 : ∀ i < l.length, altSub mealNames mealEmoji (l.drop i) = none) :
    format_menu_as_plain_text (format_menu_as_plain_text l) =
      format_menu_as_plain_text l := by
  have g1 := no_match_all _ l rfl h1
  have g2 := no_match_all _ l rfl h2
  have g3 := no_match_all _ l rfl h3
  have g4 := no_match_all _ l rfl h4
  have g5 := no_match_all _ l rfl h5
  have g7 := no_match_all _ l rfl h7
  have g8 := no_match_all _ l rfl h8
  have hfl : format_menu_as_plain_text l = runSub blankSub l :=
    format_reduces_to_blankPass l g1 g2 g3 g4 g5 g7 g8
  have e1 : runSub headerSub (runSub blankSub l) = runSub blankSub l :=
    runSubFuel_no_match _ _ _ le_rfl (headerSub_transfer l g1)
  have e2 : runSub bulletSub (runSub blankSub l) = runSub blankSub l :=
    runSubFuel_no_match _ _ _ le_rfl (bulletSub_transfer l g2)
  have e3 : runSub boldSub (runSub blankSub l) = runSub blankSub l :=
    runSubFuel_no_match _ _ _ le_rfl (boldSub_transfer l g3)
  have e4 : runSub starSub (runSub blankSub l) = runSub blankSub l :=
    runSubFuel_no_match _ _ _ le_rfl (starSub_transfer l g4)
  have e5 : runSub underscoreSub (runSub blankSub l) = runSub blankSub l :=
    runSubFuel_no_match _ _ _ le_rfl (underscoreSub_transfer l g5)
  have e6 : runSub blankSub (runSub blankSub l) = runSub blankSub l :=
    blankPass_idem l.length l le_rfl
  have e7 : runSub (altSub dayNames calendarEmoji) (runSub blankSub l) =
      runSub blankSub l :=
    runSubFuel_no_match _ _ _ le_rfl
      (altSub_transfer dayNames calendarEmoji alt_pat_no_newline.1 l g7)
  have e8 : runSub (altSub mealNames mealEmoji) (runSub blankSub l) =
      runSub blankSub l :=
    runSubFuel_no_match _ _ _ le_rfl
      (altSub_transfer mealNames mealEmoji alt_pat_no_newline.2 l g8)
  rw [hfl, format_menu_as_plain_text, e1, e2, e3, e4, e5, e6, e7, e8]

/-- C7 witness: a concrete markup-free text with a blank-line run and no day
or meal name. -/
theorem c7_format_idempotent_witness :
    format_menu_as_plain_text (format_menu_as_plain_text "Hello\n\nWorld".data) =
      format_menu_as_plain_text "Hello\n\nWorld".data :=
  c7_format_idempotent "Hello\n\nWorld".data (by decide) (by decide) (by decide)
    (by decide) (by decide) (by decide) (by decide)

end DietPlanner
